import Mathlib

/-!
Shallow embedding of the upload lifecycle engine of eclipse-kanto/file-upload.

Modelling conventions:
* Go `map[string]string` values are modelled as association lists with
  first-match lookup; a map assignment prepends the binding, which shadows
  any older binding under lookup.
* Wall-clock instants (`time.Time`) are modelled as integers; operations that
  stamp a time take the current instant as an explicit `now` argument.
* Go `int`/`int64` arithmetic is modelled on `Int`.  The source converts
  byte counters through `float64`/`float32` before dividing and truncating
  with `int(...)`; this is modelled as exact truncated integer division
  (`Int.tdiv`), which agrees with the float computation on the representable
  range of realistic file sizes.
* A nil-pointer dereference (panic) is modelled by returning `none` from an
  operation whose result type is wrapped in `Option`.
* External effects (file stat, shell glob expansion, `path.Match`, the
  storage SDKs) are passed in as function parameters or assumed successful,
  matching the spec's "external collaborators" scoping.
-/

namespace FileUpload

/-- Go `map[string]string`, as an association list with first-match lookup. -/
abbrev Options := List (String × String)

/-- Go map read `m[k]` distinguishing presence: `v, ok := m[k]`. -/
def lookupOpt (m : Options) (k : String) : Option String :=
  match m with
  | [] => none
  | (k', v) :: rest => if k' = k then some v else lookupOpt rest k

/-- Go map read `m[k]` with the zero value `""` for a missing key. -/
def getOpt (m : Options) (k : String) : String :=
  (lookupOpt m k).getD ""

/-- Go map assignment `m[k] = v` (prepending shadows older bindings). -/
def setOpt (m : Options) (k v : String) : Options :=
  (k, v) :: m

/-- Go `strings.ToLower`, modelled character-wise (extensionally identical to
`String.toLower`, but kernel-computable). -/
def goToLower (s : String) : String := ⟨s.data.map Char.toLower⟩

/-- Go `strings.ToUpper`, modelled character-wise. -/
def goToUpper (s : String) : String := ⟨s.data.map Char.toUpper⟩

/-- Go `strings.HasPrefix`, modelled character-wise. -/
def goHasPre (s pre : String) : Bool := pre.data.isPrefixOf s.data

/-- Go `strings.TrimPrefix` for a present lead: drop its length. -/
def goTrimPre (s pre : String) : String := ⟨s.data.drop pre.data.length⟩

/-- Decidable equality for `Except` results (used only to let concrete
evaluations go through `decide`). -/
instance {ε α : Type} [DecidableEq ε] [DecidableEq α] : DecidableEq (Except ε α) :=
  fun a b =>
    match a, b with
    | .error e, .error f =>
      if h : e = f then isTrue (by rw [h])
      else isFalse (by intro hh; injection hh; contradiction)
    | .ok x, .ok y =>
      if h : x = y then isTrue (by rw [h])
      else isFalse (by intro hh; injection hh; contradiction)
    | .error _, .ok _ => isFalse (by intro hh; cases hh)
    | .ok _, .error _ => isFalse (by intro hh; cases hh)

/-- uploaders/common.go `ExtractDictionary`: keep the entries whose key starts
with `pre` and strip that lead from the key. -/
def ExtractDictionary (options : Options) (pre : String) : Options :=
  options.filterMap (fun kv =>
    if goHasPre kv.1 pre then some (goTrimPre kv.1 pre, kv.2) else none)

/-- client/uploads.go state constant. -/
def StatePending : String := "PENDING"

/-- client/uploads.go state constant. -/
def StateUploading : String := "UPLOADING"

/-- client/uploads.go state constant. -/
def StatePaused : String := "PAUSED"

/-- client/uploads.go state constant. -/
def StateSuccess : String := "SUCCESS"

/-- client/uploads.go state constant. -/
def StateFailed : String := "FAILED"

/-- client/uploads.go state constant. -/
def StateCanceled : String := "CANCELED"

/-- client/uploads.go `InfoPrefix` constant (`"info."`). -/
def infoPre : String := "info."

/-- client/uploads.go `StorageProvider` option key. -/
def StorageProvider : String := "storage.provider"

/-- client/uploads.go sentinel: file sizes unknown, fall back to count-based progress. -/
def fineGrainedUploadProgressNotSupported : Int := -1

/-- client/uploads.go `UploadStatus`: the externally observed record. -/
structure UploadStatus where
  correlationId : String := ""
  state : String := ""
  startTime : Int := 0
  endTime : Int := 0
  statusCode : String := ""
  message : String := ""
  progress : Int := 0
  info : Options := []
deriving Repr, DecidableEq

/-- client/uploads.go `UploadStatus.finished`. -/
def UploadStatus.finished (s : UploadStatus) : Bool :=
  s.state == StateSuccess || s.state == StateCanceled || s.state == StateFailed

/-- client/uploads.go `SingleUpload` (one file push). -/
structure SingleUpload where
  correlationID : String := ""
  filePath : String := ""
  started : Bool := false
  bytesTransferred : Int := 0
  totalSizeBytes : Int := 0
deriving Repr, DecidableEq

/-- client/uploads.go `MultiUpload` (aggregate upload).  The `children` map is
modelled as a list keyed by `SingleUpload.correlationID`; the status listener is
modelled by returning the list of emitted status snapshots from each operation. -/
structure MultiUpload where
  correlationID : String := ""
  children : List SingleUpload := []
  totalCount : Nat := 0
  deleteUploaded : Bool := false
  useChecksum : Bool := false
  serverCert : String := ""
  status : Option UploadStatus := none
  totalBytesTransferred : Int := 0
  totalSizeBytes : Int := 0
deriving Repr, DecidableEq

/-- Go `int(...)` truncation of the (exactly computed) quotient. -/
def goDiv (a b : Int) : Int := Int.tdiv a b

/-- client/uploads.go `MultiUpload.removeChild` (the registry part is handled by
the caller through the returned removal flags). -/
def MultiUpload.removeChild (u : MultiUpload) (su : SingleUpload) : MultiUpload :=
  { u with children := u.children.filter (fun c => c.correlationID ≠ su.correlationID) }

/-- client/uploads.go `MultiUpload.changeProgress`.  Returns the updated
aggregate and the emitted status events; `none` models the nil-pointer
dereference of `u.status.Progress` when no status exists yet. -/
def MultiUpload.changeProgress (u : MultiUpload) (newBytesTransferred : Int) :
    Option (MultiUpload × List UploadStatus) :=
  if u.totalSizeBytes = 0 then
    some (u, [])
  else if u.totalSizeBytes ≠ fineGrainedUploadProgressNotSupported then
    match u.status with
    | none => none
    | some st =>
      let tbt := u.totalBytesTransferred + newBytesTransferred
      let newProgress := goDiv (100 * tbt) u.totalSizeBytes
      let notify := newProgress ≠ st.progress
      let st' := { st with progress := newProgress }
      some ({ u with totalBytesTransferred := tbt, status := some st' },
            if notify then [st'] else [])
  else
    some (u, [])

/-- client/uploads.go `MultiUpload.cancel`.  The final component tells whether
the non-terminal path ran (children cancelled, aggregate removed from the
registry). -/
def MultiUpload.cancel (u : MultiUpload) (code message : String) (now : Int) :
    MultiUpload × List UploadStatus × Bool :=
  match u.status with
  | some st =>
    if st.finished then
      (u, [], false)
    else
      let st' := { st with state := StateCanceled, statusCode := code,
                           message := message, endTime := now }
      ({ u with status := some st' }, [st'], true)
  | none =>
    let st' : UploadStatus :=
      { state := StateCanceled, statusCode := code, message := message, endTime := now }
    ({ u with status := some st' }, [st'], true)

/-- client/uploads.go `MultiUpload.uploadStarted`: the first call moves the
aggregate to UPLOADING and emits one event; later calls observe a non-PENDING
state and return without emitting. -/
def MultiUpload.uploadStarted (u : MultiUpload) (info : Options) (now : Int) :
    MultiUpload × List UploadStatus :=
  let fresh : UploadStatus :=
    { correlationId := u.correlationID, state := StateUploading,
      startTime := now, progress := 0, info := info }
  match u.status with
  | some st =>
    if st.state ≠ StatePending then (u, [])
    else ({ u with status := some fresh }, [fresh])
  | none => ({ u with status := some fresh }, [fresh])

/-- client/uploads.go `MultiUpload.uploadFailed`.  The child is removed first;
the final component tells whether the non-terminal path ran. -/
def MultiUpload.uploadFailed (u : MultiUpload) (su : SingleUpload) (errMsg : String)
    (now : Int) : MultiUpload × List UploadStatus × Bool :=
  let u1 := u.removeChild su
  match u1.status with
  | none => (u1, [], false)
  | some st =>
    if st.finished then
      (u1, [], false)
    else
      let st' := { st with state := StateFailed, endTime := now, message := errMsg }
      ({ u1 with status := some st' }, [st'], true)

/-- client/uploads.go `MultiUpload.uploadFinished`.  The child is removed first;
`none` models the nil dereference of `u.status.finished()`; the final component
is the `remaining == 0` flag that triggers registry removal. -/
def MultiUpload.uploadFinished (u : MultiUpload) (su : SingleUpload) (now : Int) :
    Option (MultiUpload × List UploadStatus × Bool) :=
  let u1 := u.removeChild su
  match u1.status with
  | none => none
  | some st =>
    if st.finished then
      some (u1, [], false)
    else
      let remaining := u1.children.length
      if remaining = 0 then
        let st' := { st with progress := 100, state := StateSuccess, endTime := now }
        some ({ u1 with status := some st' }, [st'], true)
      else if u1.totalSizeBytes ≠ fineGrainedUploadProgressNotSupported ∧
              u1.totalSizeBytes ≠ 0 then
        let tbt := u1.totalBytesTransferred + (su.totalSizeBytes - su.bytesTransferred)
        let st' := { st with progress := goDiv (100 * tbt) u1.totalSizeBytes }
        some ({ u1 with totalBytesTransferred := tbt, status := some st' }, [st'], false)
      else
        let st' := { st with
          progress := goDiv (100 * ((u1.totalCount : Int) - (remaining : Int)))
                            (u1.totalCount : Int) }
        some ({ u1 with status := some st' }, [st'], false)

/-! ### Uploader constructors (uploaders package) -/

/-- uploaders/common.go `StorageProviderHTTP`. -/
def StorageProviderHTTP : String := "generic"

/-- uploaders/aws.go `StorageProviderAWS`. -/
def StorageProviderAWS : String := "aws"

/-- uploaders/azure.go `StorageProviderAzure`. -/
def StorageProviderAzure : String := "azure"

/-- uploaders/common.go `URLProp`. -/
def URLProp : String := "https.url"

/-- uploaders/common.go `MethodProp`. -/
def MethodProp : String := "https.method"

/-- uploaders/common.go `HeadersPrefix` constant (`"https.header."`). -/
def headersPre : String := "https.header."

/-- uploaders/aws.go option key. -/
def AWSRegion : String := "aws.region"

/-- uploaders/aws.go option key. -/
def AWSAccessKeyID : String := "aws.access.key.id"

/-- uploaders/aws.go option key. -/
def AWSSecretAccessKey : String := "aws.secret.access.key"

/-- uploaders/aws.go option key. -/
def AWSSessionToken : String := "aws.session.token"

/-- uploaders/aws.go option key. -/
def AWSBucket : String := "aws.s3.bucket"

/-- uploaders/aws.go option key. -/
def AWSObjectKey : String := "aws.object.key"

/-- uploaders/azure.go option key. -/
def AzureEndpoint : String := "azure.storage.endpoint"

/-- uploaders/azure.go option key. -/
def AzureSas : String := "azure.shared.access.signature"

/-- uploaders/azure.go option key. -/
def AzureContainerName : String := "azure.blob.container"

/-- uploaders/common.go `missingParameterErrMsg` format applied to a name. -/
def missingParameterErrMsg (name : String) : String :=
  "required parameter \x27" ++ name ++ "\x27 missing or empty"

/-- uploaders/common.go `HTTPUploader`. -/
structure HTTPUploader where
  url : String
  headers : Options
  method : String
deriving Repr, DecidableEq

/-- uploaders/aws.go `awsCredentials`. -/
structure AwsCredentials where
  key : String
  secret : String
  token : String
  region : String
  bucket : String
deriving Repr, DecidableEq

/-- uploaders/aws.go `AWSUploader` (the SDK client is not modelled). -/
structure AWSUploader where
  bucket : String
  objectKey : String
deriving Repr, DecidableEq

/-- uploaders/azure.go `AzureUploader`. -/
structure AzureUploader where
  endpoint : String
  sas : String
  container : String
deriving Repr, DecidableEq

/-- uploaders `Uploader` interface: the three concrete variants. -/
inductive Uploader where
  | http : HTTPUploader → Uploader
  | aws : AWSUploader → Uploader
  | azure : AzureUploader → Uploader
deriving Repr, DecidableEq

/-- uploaders/common.go `NewHTTPUploader`: validates `https.url` and
`https.method` and collects `https.header.*`. -/
def NewHTTPUploader (options : Options) : Except String Uploader :=
  let url := getOpt options URLProp
  if url = "" then
    .error "upload URL not specified"
  else
    let method := match lookupOpt options MethodProp with
                  | none => "PUT"
                  | some m => goToUpper m
    if method ≠ "PUT" ∧ method ≠ "POST" then
      .error ("unsupported HTTP method: " ++ method)
    else
      .ok (.http ⟨url, ExtractDictionary options headersPre, method⟩)

/-- uploaders/aws.go `getAWSCredentials`: all of bucket, access key id, region
and secret are required; the session token is optional. -/
def getAWSCredentials (options : Options) : Except String AwsCredentials :=
  let r : AwsCredentials :=
    { bucket := getOpt options AWSBucket
      key := getOpt options AWSAccessKeyID
      region := getOpt options AWSRegion
      secret := getOpt options AWSSecretAccessKey
      token := getOpt options AWSSessionToken }
  if r.bucket = "" then .error (missingParameterErrMsg AWSBucket)
  else if r.key = "" then .error (missingParameterErrMsg AWSAccessKeyID)
  else if r.region = "" then .error (missingParameterErrMsg AWSRegion)
  else if r.secret = "" then .error (missingParameterErrMsg AWSSecretAccessKey)
  else .ok r

/-- uploaders/aws.go `NewAWSUploader` (the SDK configuration load is modelled
as successful: it has no failure mode that depends on the options). -/
def NewAWSUploader (options : Options) : Except String Uploader :=
  match getAWSCredentials options with
  | .error e => .error e
  | .ok cred => .ok (.aws ⟨cred.bucket, getOpt options AWSObjectKey⟩)

/-- uploaders/azure.go `NewAzureUploader`: endpoint, shared access signature
and container are all required. -/
def NewAzureUploader (options : Options) : Except String Uploader :=
  let uploader : AzureUploader :=
    { endpoint := getOpt options AzureEndpoint
      sas := getOpt options AzureSas
      container := getOpt options AzureContainerName }
  if uploader.endpoint = "" then .error (missingParameterErrMsg AzureEndpoint)
  else if uploader.sas = "" then .error (missingParameterErrMsg AzureSas)
  else if uploader.container = "" then .error (missingParameterErrMsg AzureContainerName)
  else .ok (.azure uploader)

/-- client/uploads.go `getUploader`: dispatch on the lower-cased
`storage.provider` option, defaulting to the generic HTTP uploader.  The
`serverCert` argument is forwarded to the HTTP variant in the source; the
validation logic modelled here does not depend on it. -/
def getUploader (options : Options) (_serverCert : String) : Except String Uploader :=
  match lookupOpt options StorageProvider with
  | none => NewHTTPUploader options
  | some s =>
    let storage := goToLower s
    if storage = StorageProviderHTTP then NewHTTPUploader options
    else if storage = StorageProviderAWS then NewAWSUploader options
    else if storage = StorageProviderAzure then NewAzureUploader options
    else .error ("unknown storage provider \x27" ++ storage ++ "\x27")

/-- client/uploads.go `SingleUpload.start`, synchronous part: acquire an
uploader, compare-and-swap the `started` guard and run the parent's
`uploadStarted` hook.  A successful result means the upload worker was
launched; an error leaves every state component unchanged. -/
def SingleUpload.start (u : SingleUpload) (parent : MultiUpload) (options : Options)
    (now : Int) : Except String (SingleUpload × MultiUpload × List UploadStatus) :=
  match getUploader options parent.serverCert with
  | .error e => .error e
  | .ok _ =>
    if u.started then
      .error ("upload \x27" ++ u.correlationID ++ "\x27 already started")
    else
      let info := ExtractDictionary options infoPre
      let (parent', events) := parent.uploadStarted info now
      .ok ({ u with started := true }, parent', events)

/-! ### Registry construction and trigger path (client package) -/

/-- client/events.go `optionsPrefix` constant (`"options."`). -/
def optionsPre : String := "options."

/-- client/events.go `filePathOption`. -/
def filePathOption : String := "file.path"

/-- One iteration of the `AddMulti` loop: derive the child id, append the
child (`AddSingle`), then best-effort stat the path, accumulating the size or
switching the aggregate to the count-based sentinel. -/
def addMultiStep (correlationID : String) (stat : String → Option Int)
    (acc : MultiUpload × List String) (p : Nat × String) : MultiUpload × List String :=
  let m := acc.1
  let id := correlationID ++ "#" ++ toString (p.1 + 1)
  let child : SingleUpload := { correlationID := id, filePath := p.2 }
  let m1 := { m with children := m.children ++ [child] }
  let m2 :=
    if m1.totalSizeBytes ≠ fineGrainedUploadProgressNotSupported then
      match stat p.2 with
      | none => { m1 with totalSizeBytes := fineGrainedUploadProgressNotSupported }
      | some size =>
        { m1 with totalSizeBytes := m1.totalSizeBytes + size,
                  children := m1.children.map (fun c =>
                    if c.correlationID = id then { c with totalSizeBytes := size } else c) }
    else m1
  (m2, acc.2 ++ [id])

/-- client/uploads.go `Uploads.AddMulti`: build the aggregate with one child
per path (ids `"<parent>#<n>"`, 1-based, in input order), accumulating sizes
via `stat`; any stat failure switches the aggregate to count-based accounting.
Returns the aggregate and the child id list. -/
def AddMulti (correlationID : String) (paths : List String)
    (deleteUploaded useChecksum : Bool) (serverCert : String)
    (stat : String → Option Int) : MultiUpload × List String :=
  let init : MultiUpload :=
    { correlationID := correlationID, deleteUploaded := deleteUploaded,
      useChecksum := useChecksum, serverCert := serverCert,
      totalCount := paths.length }
  paths.enum.foldl (addMultiStep correlationID stat) (init, [])

/-- One outbox `request` message of the trigger path. -/
structure UploadRequest where
  correlationID : String
  options : Options
deriving Repr, DecidableEq

/-- client/events.go `AutoUploadable.UploadFiles`: register the aggregate and
emit one `request` message per file, pairing the i-th child id with the i-th
file; each message carries the trigger options with the `options.` lead
stripped plus the `storage.providers` and `file.path` entries. -/
def UploadFiles (correlationID : String) (files : List String) (options : Options)
    (deleteCfg checksumCfg : Bool) (serverCert : String)
    (stat : String → Option Int) : MultiUpload × List UploadRequest :=
  let r := AddMulti correlationID files deleteCfg checksumCfg serverCert stat
  let reqs := (r.2.zip files).map (fun cf =>
    let o := ExtractDictionary options optionsPre
    let o := setOpt o "storage.providers" "aws, azure, generic"
    let o := setOpt o filePathOption cf.2
    { correlationID := cf.1, options := o })
  (r.1, reqs)

/-! ### Control plane: activate (client/events.go) -/

/-- Parse result of an `activate` payload: either invalid JSON, or the two
optional RFC3339 instants. -/
inductive ActivatePayload where
  | invalid
  | params (fromT toT : Option Int)
deriving Repr, DecidableEq

/-- client/events.go `AutoUploadableState` (the published `autoUpload` value). -/
structure AutoUploadableState where
  active : Bool := false
  startTime : Option Int := none
  endTime : Option Int := none
deriving Repr, DecidableEq

/-- Operation response: 204 No Content, or an error status with a message. -/
inductive OpResponse where
  | noContent
  | err (status : Nat) (message : String)
deriving Repr, DecidableEq

/-- client/events.go `AutoUploadable.activate`.  The result is `none` when the
source panics: `params.To.Before(*params.From)` dereferences `To` and `From`
without nil checks, so an absent `from` or `to` crashes the handler goroutine.
On success the new state, the response and an executor-(re)started flag are
returned. -/
def activate (st : AutoUploadableState) (payload : ActivatePayload) :
    Option (AutoUploadableState × OpResponse × Bool) :=
  match payload with
  | .invalid =>
    some (st, .err 400 "invalid \x27activate\x27 operation parameters", false)
  | .params f t =>
    match t, f with
    | some tv, some fv =>
      if tv < fv then
        some (st, .err 400 "period end is before period start", false)
      else
        some ({ active := true, startTime := f, endTime := t }, .noContent, true)
    | _, _ => none

/-! ### Trigger file selection (client/fileupload.go) -/

/-- client/fileupload.go `AccessMode` values. -/
inductive AccessMode where
  | ModeNA
  | ModeStrict
  | ModeLax
  | ModeScoped
deriving Repr, DecidableEq

/-- client/fileupload.go `AccessMode.String`. -/
def AccessMode.toName : AccessMode → String
  | .ModeStrict => "strict"
  | .ModeLax => "lax"
  | .ModeScoped => "scoped"
  | .ModeNA => ""

/-- client/fileupload.go `uploadFilesProperty`. -/
def uploadFilesProperty : String := "upload.files"

/-- client/fileupload.go `FileUpload.isGlobUploadPermitted`.  `pmatch` is Go's
`filepath.Match` (pattern, name), which can also fail on a bad pattern. -/
def isGlobUploadPermitted (filesGlob : String) (mode : AccessMode)
    (pmatch : String → String → Except String Bool) (glob : String) :
    Except String Bool :=
  match mode with
  | .ModeLax => .ok true
  | .ModeStrict => .ok (glob = filesGlob)
  | .ModeScoped => pmatch filesGlob glob
  | .ModeNA => .ok false

/-- The error text of client/fileupload.go for a rejected override. -/
def notPermittedMsg (glob : String) (mode : AccessMode) : String :=
  "uploading \x27" ++ glob ++ "\x27 with mode \x27" ++ mode.toName ++ "\x27 is not permitted"

/-- The error text of client/fileupload.go for a blocked concurrent trigger. -/
def ongoingUploadMsg : String :=
  "there is an ongoing upload -  set the \x27force\x27 option to \x27true\x27 to force trigger the upload"

/-- Tail of client/fileupload.go `DoTrigger` after the glob is resolved:
empty-glob check, single-upload gate, then glob expansion (the subsequent
`UploadFiles` call is modelled separately). -/
def resolveGlob (singleUploadCfg hasPending : Bool)
    (globFn : String → Except String (List String))
    (options : Options) (glob : String) : Except String (List String) :=
  if glob = "" then .error "upload files not specified"
  else
    let single := if getOpt options "force" = "true" then false else singleUploadCfg
    if single ∧ hasPending then .error ongoingUploadMsg
    else globFn glob

/-- client/fileupload.go `FileUpload.DoTrigger`: resolve the glob from the
configured value or a permitted `upload.files` override, then run the shared
tail.  `pmatch` and `globFn` model `filepath.Match` and `filepath.Glob`. -/
def DoTrigger (filesGlob : String) (mode : AccessMode)
    (singleUploadCfg hasPending : Bool)
    (pmatch : String → String → Except String Bool)
    (globFn : String → Except String (List String))
    (options : Options) : Except String (List String) :=
  match lookupOpt options uploadFilesProperty with
  | none => resolveGlob singleUploadCfg hasPending globFn options filesGlob
  | some g =>
    match isGlobUploadPermitted filesGlob mode pmatch g with
    | .error e => .error e
    | .ok ok =>
      if ok then resolveGlob singleUploadCfg hasPending globFn options g
      else .error (notPermittedMsg g mode)

/-! ### Bounded event queue (client/ring_buffer.go) -/

/-- client/ring_buffer.go `ringBuffer`.  The Go slice of `interface{}` holds
nil in never-written slots, modelled by `Option α`; the source field `end` is
named `endIdx` here (`end` is reserved). -/
structure ringBuffer (α : Type) where
  elements : List (Option α)
  start : Nat
  endIdx : Nat
deriving Repr, DecidableEq

/-- client/ring_buffer.go `newRingBuffer`: one spare slot distinguishes empty
from full. -/
def newRingBuffer (α : Type) (size : Nat) : ringBuffer α :=
  { elements := List.replicate (size + 1) none, start := 0, endIdx := 0 }

/-- client/ring_buffer.go `ringBuffer.empty`. -/
def ringBuffer.isEmpty (buf : ringBuffer α) : Bool :=
  buf.start == buf.endIdx

/-- client/ring_buffer.go `ringBuffer.get`: `none` when the buffer is empty,
otherwise the stored cell (still an `Option`, nil only for never-written
slots) and the advanced buffer. -/
def ringBuffer.get (buf : ringBuffer α) : Option (Option α) × ringBuffer α :=
  if buf.start = buf.endIdx then (none, buf)
  else (some (buf.elements.getD buf.start none),
        { buf with start := (buf.start + 1) % buf.elements.length })

/-- client/ring_buffer.go `ringBuffer.put` for one element: write at `end`,
advance it, and push `start` forward when the buffer just became "full". -/
def ringBuffer.put (buf : ringBuffer α) (e : α) : ringBuffer α :=
  let elements := buf.elements.set buf.endIdx (some e)
  let endIdx := (buf.endIdx + 1) % elements.length
  if endIdx = buf.start then
    { elements := elements, endIdx := endIdx, start := (buf.start + 1) % elements.length }
  else
    { elements := elements, endIdx := endIdx, start := buf.start }

/-- client/ring_buffer.go variadic `put`, applied to a list in order. -/
def ringBuffer.putAll (buf : ringBuffer α) (es : List α) : ringBuffer α :=
  es.foldl ringBuffer.put buf

/-- Repeated `get` until the buffer reports empty (fuel-bounded; the live
segment never exceeds the backing array length). -/
def ringBuffer.drainAux : Nat → ringBuffer α → List α
  | 0, _ => []
  | fuel + 1, buf =>
    match buf.get with
    | (none, _) => []
    | (some e, buf') => e.toList ++ ringBuffer.drainAux fuel buf'

/-- Drain the buffer: collect every element `get` yields until empty. -/
def ringBuffer.drain (buf : ringBuffer α) : List α :=
  ringBuffer.drainAux buf.elements.length buf

/-! ### Concrete example states used by witnesses and counterexamples -/

/-- An aggregate whose status is already CANCELED, with byte accounting
enabled and one child still registered (its transfer may still be in
flight when cancel raced with progress). -/
def canceledAgg : MultiUpload :=
  { correlationID := "c1",
    children := [{ correlationID := "c1#1", filePath := "a", started := true,
                   bytesTransferred := 40, totalSizeBytes := 100 }],
    totalCount := 1,
    status := some { correlationId := "c1", state := StateCanceled, startTime := 1,
                     endTime := 2, statusCode := "tc", message := "m", progress := 40 },
    totalBytesTransferred := 40,
    totalSizeBytes := 100 }

/-- A child whose single-flight guard is already taken. -/
def startedChild : SingleUpload :=
  { correlationID := "u1", filePath := "a", started := true }

/-- A child not yet started. -/
def freshChild : SingleUpload :=
  { correlationID := "u1", filePath := "a", started := false }

/-- A freshly registered aggregate (no status yet). -/
def freshAgg : MultiUpload :=
  { correlationID := "c1",
    children := [{ correlationID := "c1#1", filePath := "a" }],
    totalCount := 1, totalSizeBytes := 100 }

/-- Start options naming an unknown storage provider. -/
def bogusOptions : Options := [(StorageProvider, "bogus")]

/-- Minimal valid start options for the generic HTTP uploader. -/
def validHttpOptions : Options := [(URLProp, "http://host/up")]

/-- Trigger options carrying one `info.`-prefixed entry. -/
def infoTriggerOptions : Options := [("info.x", "1")]

/-- An aggregate in flight: one child registered, status UPLOADING. -/
def uploadingAgg : MultiUpload :=
  { correlationID := "c1",
    children := [{ correlationID := "c1#1", filePath := "a", started := true,
                   bytesTransferred := 10, totalSizeBytes := 100 }],
    totalCount := 1,
    status := some { correlationId := "c1", state := StateUploading, startTime := 1,
                     progress := 10 },
    totalBytesTransferred := 10,
    totalSizeBytes := 100 }

/-- The single child of `uploadingAgg`. -/
def uploadingChild : SingleUpload :=
  { correlationID := "c1#1", filePath := "a", started := true,
    bytesTransferred := 10, totalSizeBytes := 100 }

/-- The HTTP uploader built from `validHttpOptions`. -/
def httpUploaderEx : Uploader := .http ⟨"http://host/up", [], "PUT"⟩

/-- Follows the spec's words for the per-file request options: the trigger
options prefixed with `info.` with that prefix stripped, plus `file.path`
and `storage.providers`.  Kept for comparison with the source behaviour,
which strips `options.` instead. -/
def specRequestOptions (options : Options) (file : String) : Options :=
  setOpt (setOpt (ExtractDictionary options infoPre)
    "storage.providers" "aws, azure, generic") filePathOption file

/-! ### Driver-level traces of one aggregate (for the progress invariants) -/

/-- Facts that hold when an aggregate leaves `AddMulti`: no status yet, no
bytes transferred, children bounded by `totalCount`, and `totalSizeBytes`
either a positive byte total, the `-1` sentinel, or `0`. -/
def Initialized (u : MultiUpload) : Prop :=
  u.status = none ∧ u.totalBytesTransferred = 0 ∧
  u.children.length ≤ u.totalCount ∧
  (0 < u.totalSizeBytes ∨ u.totalSizeBytes = fineGrainedUploadProgressNotSupported ∨
    u.totalSizeBytes = 0)

/-- Driver-level executions of one aggregate.  Each constructor applies one
state-machine operation; its hypotheses record what the surrounding code
guarantees about the values it passes:
* progress callbacks hand `changeProgress` the delta of a child's cumulative
  byte report, which is non-decreasing and bounded by the child's size, so
  the delta is non-negative and keeps the total within `totalSizeBytes`;
  callbacks only run while some child transfer is in flight, hence never
  after the aggregate reached SUCCESS (they can run after FAILED/CANCELED);
* `uploadFinished` receives a child of the aggregate — or a stale child
  whose aggregate already terminated — whose reported bytes do not exceed
  its size, the top-up keeping the total within `totalSizeBytes`. -/
inductive Reaches : MultiUpload → MultiUpload → List UploadStatus → Prop where
  | refl (u : MultiUpload) : Reaches u u []
  | started {u v v' : MultiUpload} {evs out : List UploadStatus}
      (info : Options) (now : Int) (h : Reaches u v evs)
      (hop : v.uploadStarted info now = (v', out)) :
      Reaches u v' (evs ++ out)
  | progress {u v v' : MultiUpload} {evs out : List UploadStatus} (d : Int)
      (h : Reaches u v evs) (hd : 0 ≤ d)
      (hbound : 0 < v.totalSizeBytes →
        v.totalBytesTransferred + d ≤ v.totalSizeBytes)
      (hns : v.status.map (fun st => st.state) ≠ some StateSuccess)
      (hop : v.changeProgress d = some (v', out)) :
      Reaches u v' (evs ++ out)
  | finished {u v v' : MultiUpload} {evs out : List UploadStatus}
      (su : SingleUpload) (now : Int) (r : Bool) (h : Reaches u v evs)
      (hmem : su ∈ v.children ∨ v.status.map UploadStatus.finished = some true)
      (hrep : su.bytesTransferred ≤ su.totalSizeBytes)
      (hbound : 0 < v.totalSizeBytes →
        v.totalBytesTransferred + (su.totalSizeBytes - su.bytesTransferred)
          ≤ v.totalSizeBytes)
      (hop : v.uploadFinished su now = some (v', out, r)) :
      Reaches u v' (evs ++ out)
  | failed {u v v' : MultiUpload} {evs out : List UploadStatus}
      (su : SingleUpload) (msg : String) (now : Int) (r : Bool)
      (h : Reaches u v evs)
      (hop : v.uploadFailed su msg now = (v', out, r)) :
      Reaches u v' (evs ++ out)
  | canceled {u v v' : MultiUpload} {evs out : List UploadStatus}
      (code msg : String) (now : Int) (r : Bool) (h : Reaches u v evs)
      (hop : v.cancel code msg now = (v', out, r)) :
      Reaches u v' (evs ++ out)

/-- The state invariant maintained along every trace. -/
structure AggInv (v : MultiUpload) : Prop where
  tbt_nonneg : 0 ≤ v.totalBytesTransferred
  tbt_le : 0 < v.totalSizeBytes → v.totalBytesTransferred ≤ v.totalSizeBytes
  children_le : v.children.length ≤ v.totalCount
  tsb_shape : 0 < v.totalSizeBytes ∨
      v.totalSizeBytes = fineGrainedUploadProgressNotSupported ∨
      v.totalSizeBytes = 0
  prog_lb : ∀ st ∈ v.status, 0 ≤ st.progress
  prog_ub : ∀ st ∈ v.status, st.progress ≤ 100
  not_pending : ∀ st ∈ v.status, st.state ≠ StatePending
  succ_children : ∀ st ∈ v.status, st.state = StateSuccess → v.children = []
  succ_prog : ∀ st ∈ v.status, st.state = StateSuccess → st.progress = 100
  prog_byte : 0 < v.totalSizeBytes → ∀ st ∈ v.status, st.state ≠ StateSuccess →
      st.progress ≤ goDiv (100 * v.totalBytesTransferred) v.totalSizeBytes
  prog_count : (v.totalSizeBytes = fineGrainedUploadProgressNotSupported ∨
        v.totalSizeBytes = 0) →
      ∀ st ∈ v.status,
        st.progress ≤ goDiv (100 * ((v.totalCount : Int) - (v.children.length : Int)))
          (v.totalCount : Int)

/-- What the emitted event sequence satisfies, relative to the final state. -/
def EventsOK (v : MultiUpload) (evs : List UploadStatus) : Prop :=
  List.Chain' (fun a b => a.progress ≤ b.progress) evs ∧
  (∀ e ∈ evs, 0 ≤ e.progress ∧ e.progress ≤ 100) ∧
  (v.status = none → evs = []) ∧
  (v.status.isSome → evs ≠ []) ∧
  (∀ st e, v.status = some st → evs.getLast? = some e → e.progress = st.progress)

/-- Initial aggregate for the concrete C2 trace: one 10-byte file. -/
def traceInit : MultiUpload :=
  { correlationID := "p",
    children := [{ correlationID := "p#1", filePath := "a", totalSizeBytes := 10 }],
    totalCount := 1, totalSizeBytes := 10 }

/-- Status after `uploadStarted` on `traceInit`. -/
def traceSt1 : UploadStatus :=
  { correlationId := "p", state := StateUploading, startTime := 1, progress := 0,
    info := [] }

/-- Aggregate after the start event. -/
def traceV1 : MultiUpload := { traceInit with status := some traceSt1 }

/-- Status after the full-size progress callback (100 percent, still
UPLOADING). -/
def traceSt2 : UploadStatus := { traceSt1 with progress := 100 }

/-- Aggregate after the progress callback. -/
def traceV2 : MultiUpload :=
  { traceInit with totalBytesTransferred := 10, status := some traceSt2 }

/-- Status after cancel. -/
def traceSt3 : UploadStatus :=
  { traceSt2 with state := StateCanceled, statusCode := "tc", message := "m", endTime := 2 }

/-- Aggregate after cancel. -/
def traceV3 : MultiUpload := { traceV2 with status := some traceSt3 }

/-- Representation relation for the ring buffer: `l` is the live segment,
oldest first.  `end` sits `l.length` slots past `start` (mod the backing
array length) and the live slots hold the cells of `l`. -/
def ringBuffer.Rep (buf : ringBuffer α) (l : List (Option α)) : Prop :=
  (0 < buf.elements.length ∧ buf.start < buf.elements.length ∧
    buf.endIdx < buf.elements.length) ∧
  l.length < buf.elements.length ∧
  buf.endIdx = (buf.start + l.length) % buf.elements.length ∧
  ∀ i, i < l.length →
    buf.elements.getD ((buf.start + i) % buf.elements.length) none = l.getD i none

/-! ## Theorems -/

/-! ### Arithmetic helpers for the truncated percent computation -/

theorem goDiv_nonneg {a b : Int} (ha : 0 ≤ a) (hb : 0 ≤ b) : 0 ≤ goDiv a b :=
  Int.tdiv_nonneg ha hb

theorem goDiv_eq_ediv {a b : Int} (ha : 0 ≤ a) (hb : 0 ≤ b) : goDiv a b = a / b :=
  Int.tdiv_eq_ediv ha hb

theorem goDiv_mono {a a' b : Int} (ha : 0 ≤ a) (h : a ≤ a') (hb : 0 < b) :
    goDiv a b ≤ goDiv a' b := by
  rw [goDiv_eq_ediv ha hb.le, goDiv_eq_ediv (ha.trans h) hb.le]
  exact Int.ediv_le_ediv hb h

theorem goDiv_hundred_le {t s : Int} (ht : 0 ≤ t) (hts : t ≤ s) (hs : 0 < s) :
    goDiv (100 * t) s ≤ 100 := by
  have h1 : goDiv (100 * t) s ≤ goDiv (100 * s) s :=
    goDiv_mono (by positivity) (by nlinarith) hs
  have h2 : goDiv (100 * s) s = 100 := by
    rw [goDiv_eq_ediv (by positivity) hs.le, mul_comm]
    exact Int.mul_ediv_cancel_left 100 hs.ne'
  omega

/-! ### Projection lemmas for `removeChild` -/

@[simp] theorem removeChild_status (u : MultiUpload) (su : SingleUpload) :
    (u.removeChild su).status = u.status := rfl

@[simp] theorem removeChild_totalSizeBytes (u : MultiUpload) (su : SingleUpload) :
    (u.removeChild su).totalSizeBytes = u.totalSizeBytes := rfl

@[simp] theorem removeChild_totalBytesTransferred (u : MultiUpload) (su : SingleUpload) :
    (u.removeChild su).totalBytesTransferred = u.totalBytesTransferred := rfl

@[simp] theorem removeChild_totalCount (u : MultiUpload) (su : SingleUpload) :
    (u.removeChild su).totalCount = u.totalCount := rfl

@[simp] theorem removeChild_correlationID (u : MultiUpload) (su : SingleUpload) :
    (u.removeChild su).correlationID = u.correlationID := rfl

/-! ### C1: terminal-state monotonicity of the aggregate record -/

/-- C1 counterexample: on an aggregate whose status is already CANCELED,
a subsequent `changeProgress` call still mutates the record (progress 40
becomes 90) and emits one more status event, because `changeProgress` has no
terminal-state guard.  This refutes the claim that once the state is terminal
the record is never mutated again and no later event is emitted. -/
theorem spec2proof_c1_counterexample :
    (canceledAgg.status.map UploadStatus.finished = some true) ∧
    (canceledAgg.status.map (fun s => s.progress) = some 40) ∧
    ((canceledAgg.changeProgress 50).map
        (fun r => (r.1.status.map (fun s => s.progress), r.2.length))
      = some (some 90, 1)) := by
  refine ⟨rfl, rfl, by decide⟩

/-- C1 (amended): once the status state is terminal, the `cancel`,
`uploadFailed`, `uploadFinished` and `uploadStarted` operations never mutate
the status record again and emit no event (`uploadFailed`/`uploadFinished`
still detach the finished child); `changeProgress`, however, carries no
terminal-state guard, so a late progress callback can still mutate the record
and emit an event (see the counterexample). -/
theorem spec2proof_c1 (u : MultiUpload) (st : UploadStatus)
    (hst : u.status = some st) (hterm : st.finished = true) :
    (∀ code msg now, u.cancel code msg now = (u, [], false)) ∧
    (∀ su e now, (u.uploadFailed su e now).1.status = u.status ∧
                 (u.uploadFailed su e now).2 = ([], false)) ∧
    (∀ su now, (u.uploadFinished su now).map
        (fun r => (r.1.status, r.2.1, r.2.2)) = some (u.status, [], false)) ∧
    (∀ info now, u.uploadStarted info now = (u, [])) := by
  have hnp : st.state ≠ StatePending := by
    intro hp
    simp only [UploadStatus.finished, hp] at hterm
    exact absurd hterm (by decide)
  refine ⟨?_, ?_, ?_, ?_⟩
  · intro code msg now
    simp [MultiUpload.cancel, hst, hterm]
  · intro su e now
    constructor <;> simp [MultiUpload.uploadFailed, MultiUpload.removeChild, hst, hterm]
  · intro su now
    simp [MultiUpload.uploadFinished, MultiUpload.removeChild, hst, hterm]
  · intro info now
    simp [MultiUpload.uploadStarted, hst, hnp]

/-- C1 witness: the amended theorem applied to the concrete CANCELED
aggregate. -/
theorem spec2proof_c1_witness :
    canceledAgg.cancel "x" "y" 9 = (canceledAgg, [], false) :=
  (spec2proof_c1 canceledAgg _ rfl (by decide)).1 "x" "y" 9

/-! ### C3: functional correctness of `uploadFinished` -/

/-- C3: finishing a child on a non-terminal aggregate removes the child and
emits exactly one status event; if no children remain the status becomes
SUCCESS with progress 100 and `endTime = now` and the aggregate is removed
from the registry; otherwise with byte accounting enabled
(`totalSizeBytes ∉ {-1, 0}`) the transferred total is topped up by the
child's full size minus its reported bytes and the percent is recomputed
from it; otherwise the percent is `⌊100·(totalCount − remaining)/totalCount⌋`.
The `remaining ≤ totalCount` hypothesis holds in every reachable state
(children are only ever removed). -/
theorem spec2proof_c3 (u : MultiUpload) (su : SingleUpload) (now : Int)
    (st : UploadStatus) (hst : u.status = some st) (hterm : st.finished = false)
    (hcount : (u.removeChild su).children.length ≤ u.totalCount) :
    ∃ u' st' removed, u.uploadFinished su now = some (u', [st'], removed) ∧
      u'.status = some st' ∧
      (let remaining := (u.removeChild su).children.length
       if remaining = 0 then
         st'.progress = 100 ∧ st'.state = StateSuccess ∧ st'.endTime = now ∧
         removed = true
       else if u.totalSizeBytes ≠ fineGrainedUploadProgressNotSupported ∧
               u.totalSizeBytes ≠ 0 then
         u'.totalBytesTransferred
             = u.totalBytesTransferred + (su.totalSizeBytes - su.bytesTransferred) ∧
         st'.progress = goDiv (100 * u'.totalBytesTransferred) u.totalSizeBytes ∧
         removed = false
       else
         st'.progress = Int.fdiv (100 * ((u.totalCount : Int) - (remaining : Int)))
                          (u.totalCount : Int) ∧
         removed = false) := by
  by_cases hrem : (u.removeChild su).children.length = 0
  · have heq : u.uploadFinished su now = some ({ u.removeChild su with status := some { st with progress := 100, state := StateSuccess, endTime := now } }, [{ st with progress := 100, state := StateSuccess, endTime := now }], true) := by
      simp [MultiUpload.uploadFinished, hst, hterm, hrem]
    exact ⟨_, _, _, heq, rfl, by simp [hrem, StateSuccess]⟩
  · by_cases hbyte : u.totalSizeBytes ≠ fineGrainedUploadProgressNotSupported ∧
        u.totalSizeBytes ≠ 0
    · have heq : u.uploadFinished su now = some ({ u.removeChild su with totalBytesTransferred := u.totalBytesTransferred + (su.totalSizeBytes - su.bytesTransferred), status := some { st with progress := goDiv (100 * (u.totalBytesTransferred + (su.totalSizeBytes - su.bytesTransferred))) u.totalSizeBytes } }, [{ st with progress := goDiv (100 * (u.totalBytesTransferred + (su.totalSizeBytes - su.bytesTransferred))) u.totalSizeBytes }], false) := by
        simp [MultiUpload.uploadFinished, hst, hterm, hrem, hbyte]
      exact ⟨_, _, _, heq, rfl, by simp [hrem, hbyte]⟩
    · have heq : u.uploadFinished su now = some ({ u.removeChild su with status := some { st with progress := goDiv (100 * ((u.totalCount : Int) - ((u.removeChild su).children.length : Int))) (u.totalCount : Int) } }, [{ st with progress := goDiv (100 * ((u.totalCount : Int) - ((u.removeChild su).children.length : Int))) (u.totalCount : Int) }], false) := by
        simp [MultiUpload.uploadFinished, hst, hterm, hrem, hbyte]
      refine ⟨_, _, _, heq, rfl, ?_⟩
      have hc : ((u.removeChild su).children.length : Int) ≤ (u.totalCount : Int) := by
        exact_mod_cast hcount
      have hnum : (0 : Int) ≤
          100 * ((u.totalCount : Int) - ((u.removeChild su).children.length : Int)) := by
        nlinarith
      have hden : (0 : Int) ≤ (u.totalCount : Int) := Int.natCast_nonneg _
      simp only [if_neg hrem, if_neg hbyte]
      refine ⟨?_, by trivial⟩
      show goDiv (100 * ((u.totalCount : Int) - ((u.removeChild su).children.length : Int)))
          (u.totalCount : Int) = _
      rw [goDiv_eq_ediv hnum hden, Int.fdiv_eq_ediv _ hden]

/-- C3 witness: finishing the only child of the in-flight aggregate. -/
theorem spec2proof_c3_witness :
    ∃ u' st' removed,
      uploadingAgg.uploadFinished uploadingChild 7 = some (u', [st'], removed) ∧
      u'.status = some st' ∧
      (let remaining := (uploadingAgg.removeChild uploadingChild).children.length
       if remaining = 0 then
         st'.progress = 100 ∧ st'.state = StateSuccess ∧ st'.endTime = 7 ∧
         removed = true
       else if uploadingAgg.totalSizeBytes ≠ fineGrainedUploadProgressNotSupported ∧
               uploadingAgg.totalSizeBytes ≠ 0 then
         u'.totalBytesTransferred = uploadingAgg.totalBytesTransferred +
             (uploadingChild.totalSizeBytes - uploadingChild.bytesTransferred) ∧
         st'.progress = goDiv (100 * u'.totalBytesTransferred) uploadingAgg.totalSizeBytes ∧
         removed = false
       else
         st'.progress = Int.fdiv
             (100 * ((uploadingAgg.totalCount : Int) - (remaining : Int)))
             (uploadingAgg.totalCount : Int) ∧
         removed = false) :=
  spec2proof_c3 uploadingAgg uploadingChild 7 _ rfl (by decide) (by decide)

/-! ### C4: single-flight guard of `SingleUpload.start` -/

/-- C4 counterexample: on a child whose guard is already taken, a further
start call with an unknown storage provider fails with the uploader
construction error, not with the already-started error — `getUploader`
runs before the compare-and-swap.  This refutes the claim that every further
start call returns the already-started error. -/
theorem spec2proof_c4_counterexample :
    startedChild.started = true ∧
    startedChild.start freshAgg bogusOptions 0
      = .error "unknown storage provider \x27bogus\x27" ∧
    "unknown storage provider \x27bogus\x27"
      ≠ "upload \x27" ++ startedChild.correlationID ++ "\x27 already started" := by
  refine ⟨rfl, by decide, by decide⟩

/-- C4 (amended): after the guard is taken, no further start call ever
launches another upload worker (the result is never `.ok`), and every further
call whose options still produce a valid uploader fails with
the already-started error naming the child id; a call with invalid options fails
with the uploader construction error instead. -/
theorem spec2proof_c4 (u : SingleUpload) (parent : MultiUpload) (options : Options)
    (now : Int) (hstarted : u.started = true) :
    (∀ r, u.start parent options now ≠ .ok r) ∧
    (∀ up, getUploader options parent.serverCert = .ok up →
        u.start parent options now
          = .error ("upload \x27" ++ u.correlationID ++ "\x27 already started")) := by
  constructor
  · intro r hok
    unfold SingleUpload.start at hok
    cases hgt : getUploader options parent.serverCert with
    | error e => rw [hgt] at hok; cases hok
    | ok up => rw [hgt, hstarted] at hok; simp at hok
  · intro up hgt
    unfold SingleUpload.start
    rw [hgt, hstarted]
    simp

/-- C4 witness: the amended theorem applied to a started child with valid
HTTP options. -/
theorem spec2proof_c4_witness :
    startedChild.start freshAgg validHttpOptions 3
      = .error ("upload \x27" ++ startedChild.correlationID ++ "\x27 already started") :=
  (spec2proof_c4 startedChild freshAgg validHttpOptions 3 rfl).2 httpUploaderEx (by decide)

/-! ### C10: uploader construction failures leave the child restartable -/

/-- C10: when `getUploader` rejects the options, `start` returns that error
before the compare-and-swap, so no state component changes, no event is
emitted and no worker is launched (the model returns updated state only in
the `.ok` case); a later start call on the same not-yet-started child with
valid options then succeeds, takes the guard and runs the parent's
`uploadStarted` hook. -/
theorem spec2proof_c10 (u : SingleUpload) (parent : MultiUpload)
    (options options' : Options) (now now' : Int) (e : String)
    (herr : getUploader options parent.serverCert = .error e)
    (hfresh : u.started = false) :
    u.start parent options now = .error e ∧
    (∀ up, getUploader options' parent.serverCert = .ok up →
        ∃ parentEvents, u.start parent options' now'
            = .ok ({ u with started := true }, parentEvents) ∧
          parentEvents = parent.uploadStarted (ExtractDictionary options' infoPre) now') := by
  constructor
  · unfold SingleUpload.start
    rw [herr]
  · intro up hgt
    unfold SingleUpload.start
    rw [hgt, hfresh]
    exact ⟨_, by simp, rfl⟩

/-- C10 witness: a failed start with a bogus provider on a fresh child. -/
theorem spec2proof_c10_witness :
    freshChild.start freshAgg bogusOptions 0
      = .error "unknown storage provider \x27bogus\x27" :=
  (spec2proof_c10 freshChild freshAgg bogusOptions validHttpOptions 0 1
    "unknown storage provider \x27bogus\x27" (by decide) rfl).1

/-! ### C9: required-option validation of the uploader constructors -/

/-- C9 counterexample: the generic HTTP constructor reports a missing or
empty `https.url` as "upload URL not specified", not as the claimed
the claimed missing-or-empty message naming https.url. -/
theorem spec2proof_c9_counterexample :
    NewHTTPUploader [] = .error "upload URL not specified" ∧
    "upload URL not specified" ≠ missingParameterErrMsg URLProp := by
  refine ⟨rfl, by decide⟩

/-- C9 (amended): the AWS and Azure constructors fail with
the missing-or-empty message naming the first missing
option in their check order (bucket, access key id, region, secret;
endpoint, shared access signature, container); the generic HTTP constructor
fails with "upload URL not specified" when `https.url` is missing or empty,
and with "unsupported HTTP method: <M>" when `https.method` is given but is
neither PUT nor POST after upper-casing. -/
theorem spec2proof_c9 (options : Options) :
    (getOpt options URLProp = "" →
        NewHTTPUploader options = .error "upload URL not specified") ∧
    (∀ m, getOpt options URLProp ≠ "" → lookupOpt options MethodProp = some m →
        goToUpper m ≠ "PUT" → goToUpper m ≠ "POST" →
        NewHTTPUploader options = .error ("unsupported HTTP method: " ++ goToUpper m)) ∧
    (getOpt options AWSBucket = "" →
        NewAWSUploader options = .error (missingParameterErrMsg AWSBucket)) ∧
    (getOpt options AWSBucket ≠ "" → getOpt options AWSAccessKeyID = "" →
        NewAWSUploader options = .error (missingParameterErrMsg AWSAccessKeyID)) ∧
    (getOpt options AWSBucket ≠ "" → getOpt options AWSAccessKeyID ≠ "" →
        getOpt options AWSRegion = "" →
        NewAWSUploader options = .error (missingParameterErrMsg AWSRegion)) ∧
    (getOpt options AWSBucket ≠ "" → getOpt options AWSAccessKeyID ≠ "" →
        getOpt options AWSRegion ≠ "" → getOpt options AWSSecretAccessKey = "" →
        NewAWSUploader options = .error (missingParameterErrMsg AWSSecretAccessKey)) ∧
    (getOpt options AzureEndpoint = "" →
        NewAzureUploader options = .error (missingParameterErrMsg AzureEndpoint)) ∧
    (getOpt options AzureEndpoint ≠ "" → getOpt options AzureSas = "" →
        NewAzureUploader options = .error (missingParameterErrMsg AzureSas)) ∧
    (getOpt options AzureEndpoint ≠ "" → getOpt options AzureSas ≠ "" →
        getOpt options AzureContainerName = "" →
        NewAzureUploader options = .error (missingParameterErrMsg AzureContainerName)) := by
  refine ⟨?_, ?_, ?_, ?_, ?_, ?_, ?_, ?_, ?_⟩ <;> intros <;>
    simp_all [NewHTTPUploader, NewAWSUploader, NewAzureUploader, getAWSCredentials]

/-- C9 witness: empty options make every constructor fail with its first
error. -/
theorem spec2proof_c9_witness :
    NewHTTPUploader [] = .error "upload URL not specified" ∧
    NewAWSUploader [] = .error (missingParameterErrMsg AWSBucket) ∧
    NewAzureUploader [] = .error (missingParameterErrMsg AzureEndpoint) :=
  ⟨(spec2proof_c9 []).1 rfl, (spec2proof_c9 []).2.2.1 rfl, (spec2proof_c9 []).2.2.2.2.2.2.1 rfl⟩

/-! ### C6: the `activate` operation -/

/-- C6 (code bug): the `activate` handler dereferences `params.From` and
`params.To` without nil checks, so a syntactically valid payload that omits
`from` or `to` crashes the handler goroutine (modelled as `none`) instead of
producing a 400 or 204 response; with both instants present the handler
validates `to ≥ from`, updates the window, restarts the executor and
responds 204 No Content. -/
theorem spec2proof_c6 :
    activate {} (.params none none) = none ∧
    activate {} (.params none (some 5)) = none ∧
    activate {} (.params (some 5) none) = none ∧
    activate {} .invalid
      = some ({}, .err 400 "invalid \x27activate\x27 operation parameters", false) ∧
    activate {} (.params (some 1) (some 2))
      = some ({ active := true, startTime := some 1, endTime := some 2 },
              .noContent, true) ∧
    activate {} (.params (some 2) (some 1))
      = some ({}, .err 400 "period end is before period start", false) := by
  refine ⟨rfl, rfl, rfl, rfl, by decide, by decide⟩


/-! ### C5: the trigger path request messages -/

theorem addMultiStep_snd (cid : String) (stat : String → Option Int)
    (acc : MultiUpload × List String) (p : Nat × String) :
    (addMultiStep cid stat acc p).2 = acc.2 ++ [cid ++ "#" ++ toString (p.1 + 1)] := rfl

theorem foldl_addMultiStep_snd (cid : String) (stat : String → Option Int)
    (l : List (Nat × String)) :
    ∀ acc : MultiUpload × List String,
      (l.foldl (addMultiStep cid stat) acc).2
        = acc.2 ++ l.map (fun p => cid ++ "#" ++ toString (p.1 + 1)) := by
  induction l with
  | nil => intro acc; simp
  | cons p l ih =>
    intro acc
    rw [List.foldl_cons, ih, addMultiStep_snd]
    simp

/-- The child ids returned by `AddMulti` are `"<parent>#<n>"`, 1-based, in
input order. -/
theorem addMulti_ids (cid : String) (paths : List String) (d c : Bool)
    (cert : String) (stat : String → Option Int) :
    (AddMulti cid paths d c cert stat).2
      = paths.enum.map (fun p => cid ++ "#" ++ toString (p.1 + 1)) := by
  unfold AddMulti
  rw [foldl_addMultiStep_snd]
  simp

theorem enumFrom_map_zip {α β : Type} (f : Nat × α → β) :
    ∀ (n : Nat) (l : List α),
      ((List.enumFrom n l).map f).zip l = (List.enumFrom n l).map (fun p => (f p, p.2))
  | _, [] => rfl
  | n, a :: l => by
    simp only [List.enumFrom, List.map_cons, List.zip_cons_cons]
    rw [enumFrom_map_zip f (n + 1) l]

/-- C5 counterexample: with trigger options `{info.x: 1}` the source emits a
request whose options do not contain `x` (it strips the `options.` lead, not
`info.`), whereas the spec's wording would carry `x = 1`.  This refutes the
claim that the request options equal the trigger options prefixed with
`info.` with that prefix stripped. -/
theorem spec2proof_c5_counterexample :
    ((UploadFiles "p" ["f"] infoTriggerOptions false false "" (fun _ => some 1)).2.map
        (fun r => lookupOpt r.options "x")) = [none] ∧
    lookupOpt (specRequestOptions infoTriggerOptions "f") "x" = some "1" := by
  refine ⟨by decide, by decide⟩

/-- C5 (amended): for every trigger over files f1..fn, exactly one request
message is emitted per file, the i-th carrying correlationId `"<parent>#i"`
(1-based, in input order) and options equal to the trigger options prefixed
with `options.` with that prefix stripped, plus the entries
`storage.providers = "aws, azure, generic"` and `file.path = fi`. -/
theorem spec2proof_c5 (cid : String) (files : List String) (options : Options)
    (d c : Bool) (cert : String) (stat : String → Option Int) :
    (UploadFiles cid files options d c cert stat).2
      = files.enum.map (fun p =>
          { correlationID := cid ++ "#" ++ toString (p.1 + 1),
            options := setOpt (setOpt (ExtractDictionary options optionsPre)
              "storage.providers" "aws, azure, generic") filePathOption p.2 }) := by
  simp only [UploadFiles]
  rw [addMulti_ids]
  rw [show files.enum = List.enumFrom 0 files from rfl]
  rw [enumFrom_map_zip]
  simp [List.map_map, Function.comp]

/-! ### C7: access-mode policy of `DoTrigger` -/

/-- C7: file selection obeys the access mode.  In strict mode an override
differing from the configured glob is rejected and an equal override is
accepted; in scoped mode an override is accepted iff `path.Match`
(configured-glob pattern against the override) returns true, a false result
rejects and a pattern error propagates; in lax mode any override is
accepted; and whenever the resolved glob is empty — no override with an
empty configured glob, or an accepted empty override — the trigger fails
with "upload files not specified". -/
theorem spec2proof_c7 (filesGlob : String) (single hasPending : Bool)
    (pmatch : String → String → Except String Bool)
    (globFn : String → Except String (List String))
    (options : Options) :
    (∀ g, lookupOpt options uploadFilesProperty = some g → g ≠ filesGlob →
        DoTrigger filesGlob .ModeStrict single hasPending pmatch globFn options
          = .error (notPermittedMsg g .ModeStrict)) ∧
    (∀ g, lookupOpt options uploadFilesProperty = some g → g = filesGlob →
        DoTrigger filesGlob .ModeStrict single hasPending pmatch globFn options
          = resolveGlob single hasPending globFn options g) ∧
    (∀ g, lookupOpt options uploadFilesProperty = some g →
        pmatch filesGlob g = .ok true →
        DoTrigger filesGlob .ModeScoped single hasPending pmatch globFn options
          = resolveGlob single hasPending globFn options g) ∧
    (∀ g, lookupOpt options uploadFilesProperty = some g →
        pmatch filesGlob g = .ok false →
        DoTrigger filesGlob .ModeScoped single hasPending pmatch globFn options
          = .error (notPermittedMsg g .ModeScoped)) ∧
    (∀ g e, lookupOpt options uploadFilesProperty = some g →
        pmatch filesGlob g = .error e →
        DoTrigger filesGlob .ModeScoped single hasPending pmatch globFn options
          = .error e) ∧
    (∀ g, lookupOpt options uploadFilesProperty = some g →
        DoTrigger filesGlob .ModeLax single hasPending pmatch globFn options
          = resolveGlob single hasPending globFn options g) ∧
    (∀ mode, lookupOpt options uploadFilesProperty = none → filesGlob = "" →
        DoTrigger filesGlob mode single hasPending pmatch globFn options
          = .error "upload files not specified") ∧
    (resolveGlob single hasPending globFn options ""
      = .error "upload files not specified") := by
  refine ⟨?_, ?_, ?_, ?_, ?_, ?_, ?_, ?_⟩
  · intro g hov hne
    simp [DoTrigger, isGlobUploadPermitted, hov, hne]
  · intro g hov heq
    simp [DoTrigger, isGlobUploadPermitted, hov, heq]
  · intro g hov hm
    simp [DoTrigger, isGlobUploadPermitted, hov, hm]
  · intro g hov hm
    simp [DoTrigger, isGlobUploadPermitted, hov, hm]
  · intro g e hov hm
    simp [DoTrigger, isGlobUploadPermitted, hov, hm]
  · intro g hov
    simp [DoTrigger, isGlobUploadPermitted, hov]
  · intro mode hov hempty
    simp [DoTrigger, hov, hempty, resolveGlob]
  · simp [resolveGlob]

/-- C7 witness: a scoped-mode override accepted by the pattern match resolves
to the override and proceeds. -/
theorem spec2proof_c7_witness :
    DoTrigger "/d/*.txt" .ModeScoped false false
        (fun _ _ => .ok true) (fun g => .ok [g]) [("upload.files", "/d/a.txt")]
      = resolveGlob false false (fun g => .ok [g]) [("upload.files", "/d/a.txt")]
          "/d/a.txt" :=
  (spec2proof_c7 "/d/*.txt" false false (fun _ _ => .ok true) (fun g => .ok [g])
    [("upload.files", "/d/a.txt")]).2.2.1 "/d/a.txt" (by decide) rfl


/-! ### C2 machinery: operation case lemmas -/

theorem finished_false_iff (st : UploadStatus) :
    st.finished = false ↔
      st.state ≠ StateSuccess ∧ st.state ≠ StateCanceled ∧ st.state ≠ StateFailed := by
  simp [UploadStatus.finished, not_or, and_assoc]

theorem uploadStarted_of_none {v : MultiUpload} (info : Options) (now : Int)
    (hv : v.status = none) :
    v.uploadStarted info now =
      ({ v with status := some { correlationId := v.correlationID, state := StateUploading, startTime := now, progress := 0, info := info } },
       [{ correlationId := v.correlationID, state := StateUploading, startTime := now, progress := 0, info := info }]) := by
  simp [MultiUpload.uploadStarted, hv]

theorem uploadStarted_of_some {v : MultiUpload} {st : UploadStatus}
    (info : Options) (now : Int) (hv : v.status = some st)
    (hnp : st.state ≠ StatePending) :
    v.uploadStarted info now = (v, []) := by
  simp [MultiUpload.uploadStarted, hv, hnp]

theorem changeProgress_of_zero {v : MultiUpload} (d : Int)
    (h0 : v.totalSizeBytes = 0) : v.changeProgress d = some (v, []) := by
  simp [MultiUpload.changeProgress, h0]

theorem changeProgress_of_sentinel {v : MultiUpload} (d : Int)
    (h1 : v.totalSizeBytes = fineGrainedUploadProgressNotSupported) :
    v.changeProgress d = some (v, []) := by
  simp [MultiUpload.changeProgress, h1, fineGrainedUploadProgressNotSupported]

theorem changeProgress_of_pos {v : MultiUpload} {st : UploadStatus} (d : Int)
    (hv : v.status = some st) (hpos : 0 < v.totalSizeBytes) :
    v.changeProgress d =
      some ({ v with totalBytesTransferred := v.totalBytesTransferred + d, status := some { st with progress := goDiv (100 * (v.totalBytesTransferred + d)) v.totalSizeBytes } },
            if goDiv (100 * (v.totalBytesTransferred + d)) v.totalSizeBytes ≠ st.progress
            then [{ st with progress := goDiv (100 * (v.totalBytesTransferred + d)) v.totalSizeBytes }]
            else []) := by
  have h0 : ¬ v.totalSizeBytes = 0 := by omega
  have h1 : v.totalSizeBytes ≠ fineGrainedUploadProgressNotSupported := by
    simp only [fineGrainedUploadProgressNotSupported]; omega
  simp [MultiUpload.changeProgress, h0, h1, hv]

theorem cancel_of_none {v : MultiUpload} (code msg : String) (now : Int)
    (hv : v.status = none) :
    v.cancel code msg now =
      ({ v with status := some { state := StateCanceled, statusCode := code, message := msg, endTime := now } },
       [{ state := StateCanceled, statusCode := code, message := msg, endTime := now }], true) := by
  simp [MultiUpload.cancel, hv]

theorem cancel_of_active {v : MultiUpload} {st : UploadStatus}
    (code msg : String) (now : Int) (hv : v.status = some st)
    (hf : st.finished = false) :
    v.cancel code msg now =
      ({ v with status := some { st with state := StateCanceled, statusCode := code, message := msg, endTime := now } },
       [{ st with state := StateCanceled, statusCode := code, message := msg, endTime := now }], true) := by
  simp [MultiUpload.cancel, hv, hf]

theorem cancel_of_finished {v : MultiUpload} {st : UploadStatus}
    (code msg : String) (now : Int) (hv : v.status = some st)
    (hf : st.finished = true) :
    v.cancel code msg now = (v, [], false) := by
  simp [MultiUpload.cancel, hv, hf]

theorem uploadFailed_of_none {v : MultiUpload} (su : SingleUpload)
    (msg : String) (now : Int) (hv : v.status = none) :
    v.uploadFailed su msg now = (v.removeChild su, [], false) := by
  simp [MultiUpload.uploadFailed, hv]

theorem uploadFailed_of_finished {v : MultiUpload} {st : UploadStatus}
    (su : SingleUpload) (msg : String) (now : Int) (hv : v.status = some st)
    (hf : st.finished = true) :
    v.uploadFailed su msg now = (v.removeChild su, [], false) := by
  simp [MultiUpload.uploadFailed, hv, hf]

theorem uploadFailed_of_active {v : MultiUpload} {st : UploadStatus}
    (su : SingleUpload) (msg : String) (now : Int) (hv : v.status = some st)
    (hf : st.finished = false) :
    v.uploadFailed su msg now =
      ({ v.removeChild su with status := some { st with state := StateFailed, endTime := now, message := msg } },
       [{ st with state := StateFailed, endTime := now, message := msg }], true) := by
  simp [MultiUpload.uploadFailed, hv, hf]

theorem uploadFinished_of_finished {v : MultiUpload} {st : UploadStatus}
    (su : SingleUpload) (now : Int) (hv : v.status = some st)
    (hf : st.finished = true) :
    v.uploadFinished su now = some (v.removeChild su, [], false) := by
  simp [MultiUpload.uploadFinished, hv, hf]

theorem uploadFinished_of_last {v : MultiUpload} {st : UploadStatus}
    (su : SingleUpload) (now : Int) (hv : v.status = some st)
    (hf : st.finished = false) (hrem : (v.removeChild su).children.length = 0) :
    v.uploadFinished su now =
      some ({ v.removeChild su with status := some { st with progress := 100, state := StateSuccess, endTime := now } },
        [{ st with progress := 100, state := StateSuccess, endTime := now }], true) := by
  simp [MultiUpload.uploadFinished, hv, hf, hrem]

theorem uploadFinished_of_byte {v : MultiUpload} {st : UploadStatus}
    (su : SingleUpload) (now : Int) (hv : v.status = some st)
    (hf : st.finished = false) (hrem : (v.removeChild su).children.length ≠ 0)
    (hpos : 0 < v.totalSizeBytes) :
    v.uploadFinished su now =
      some ({ v.removeChild su with totalBytesTransferred := v.totalBytesTransferred + (su.totalSizeBytes - su.bytesTransferred), status := some { st with progress := goDiv (100 * (v.totalBytesTransferred + (su.totalSizeBytes - su.bytesTransferred))) v.totalSizeBytes } },
        [{ st with progress := goDiv (100 * (v.totalBytesTransferred + (su.totalSizeBytes - su.bytesTransferred))) v.totalSizeBytes }], false) := by
  have hbyte : v.totalSizeBytes ≠ fineGrainedUploadProgressNotSupported ∧
      v.totalSizeBytes ≠ 0 := by
    simp only [fineGrainedUploadProgressNotSupported]; omega
  simp [MultiUpload.uploadFinished, hv, hf, hrem, hbyte]

theorem uploadFinished_of_count {v : MultiUpload} {st : UploadStatus}
    (su : SingleUpload) (now : Int) (hv : v.status = some st)
    (hf : st.finished = false) (hrem : (v.removeChild su).children.length ≠ 0)
    (hnb : v.totalSizeBytes = fineGrainedUploadProgressNotSupported ∨
      v.totalSizeBytes = 0) :
    v.uploadFinished su now =
      some ({ v.removeChild su with status := some { st with progress := goDiv (100 * ((v.totalCount : Int) - ((v.removeChild su).children.length : Int))) (v.totalCount : Int) } },
        [{ st with progress := goDiv (100 * ((v.totalCount : Int) - ((v.removeChild su).children.length : Int))) (v.totalCount : Int) }], false) := by
  have hnb' : ¬ (v.totalSizeBytes ≠ fineGrainedUploadProgressNotSupported ∧
      v.totalSizeBytes ≠ 0) := by
    rcases hnb with h | h <;> simp [h]
  simp [MultiUpload.uploadFinished, hv, hf, hrem, hnb']

theorem changeProgress_of_pos_none {v : MultiUpload} (d : Int)
    (hv : v.status = none) (hpos : 0 < v.totalSizeBytes) :
    v.changeProgress d = none := by
  have h0 : ¬ v.totalSizeBytes = 0 := by omega
  have h1 : v.totalSizeBytes ≠ fineGrainedUploadProgressNotSupported := by
    simp only [fineGrainedUploadProgressNotSupported]; omega
  simp [MultiUpload.changeProgress, h0, h1, hv]

theorem uploadFinished_of_nonestatus {v : MultiUpload} (su : SingleUpload)
    (now : Int) (hv : v.status = none) :
    v.uploadFinished su now = none := by
  simp [MultiUpload.uploadFinished, hv]

theorem goDiv_self_hundred {t : Int} (ht : 0 < t) : goDiv (100 * t) t = 100 := by
  rw [goDiv_eq_ediv (by positivity) ht.le, mul_comm]
  exact Int.mul_ediv_cancel_left 100 ht.ne'

theorem mem_some {α : Type} {a b : α} (h : a ∈ some b) : a = b := by
  rw [Option.mem_def] at h
  exact (Option.some_inj.mp h).symm

/-! ### C2 machinery: invariant preservation helpers -/

theorem aggInv_initial {u : MultiUpload} (hinit : Initialized u) : AggInv u := by
  obtain ⟨hst, htbt, hch, hshape⟩ := hinit
  have hvac : ∀ P : UploadStatus → Prop, ∀ st ∈ u.status, P st := by
    intro P st hstm
    rw [hst] at hstm
    cases hstm
  exact ⟨by omega, fun _ => by omega, hch, hshape, hvac _, hvac _, hvac _, hvac _,
    hvac _, fun _ => hvac _, fun _ => hvac _⟩

theorem eventsOK_initial {u : MultiUpload} (hinit : Initialized u) : EventsOK u [] := by
  obtain ⟨hst, -, -, -⟩ := hinit
  refine ⟨List.chain'_nil, by simp, fun _ => rfl, ?_, ?_⟩
  · intro hsm
    rw [hst] at hsm
    simp at hsm
  · intro st e hv
    rw [hst] at hv
    simp at hv

theorem aggInv_removeChild {v : MultiUpload} (inv : AggInv v) (su : SingleUpload) :
    AggInv (v.removeChild su) := by
  obtain ⟨h1, h2, h3, h4, h5, h6, h7, h8, h9, h10, h11⟩ := inv
  have hlen : (v.removeChild su).children.length ≤ v.children.length :=
    List.length_filter_le _ _
  refine ⟨h1, h2, hlen.trans h3, h4, h5, h6, h7, ?_, h9, h10, ?_⟩
  · intro st hst hsucc
    have he := h8 st hst hsucc
    simp [MultiUpload.removeChild, he]
  · intro hnb st hst
    have hnb2 : v.totalSizeBytes = fineGrainedUploadProgressNotSupported ∨
        v.totalSizeBytes = 0 := hnb
    have hst2 : st ∈ v.status := hst
    refine (h11 hnb2 st hst2).trans ?_
    show goDiv (100 * ((v.totalCount : Int) - (v.children.length : Int)))
        (v.totalCount : Int)
      ≤ goDiv (100 * ((v.totalCount : Int) - ((v.removeChild su).children.length : Int)))
        (v.totalCount : Int)
    by_cases htc : v.totalCount = 0
    · have hz : v.children.length = 0 := by omega
      have hz' : (v.removeChild su).children.length = 0 := by omega
      rw [hz, hz']
    · have htcp : (0 : Int) < (v.totalCount : Int) := by
        exact_mod_cast Nat.pos_of_ne_zero htc
      have hca : ((v.children.length : Int)) ≤ (v.totalCount : Int) := by exact_mod_cast h3
      have hcb : ((v.removeChild su).children.length : Int) ≤ (v.children.length : Int) := by
        exact_mod_cast hlen
      refine goDiv_mono (by nlinarith) (by nlinarith) htcp

/-- Replacing the status record preserves the invariant, given the bounds the
new record satisfies relative to the (unchanged) accounting fields. -/
theorem aggInv_setStatus {v : MultiUpload} (inv : AggInv v) (st' : UploadStatus)
    (hlb : 0 ≤ st'.progress) (hub : st'.progress ≤ 100)
    (hnp : st'.state ≠ StatePending)
    (hsc : st'.state = StateSuccess → v.children = [])
    (hsp : st'.state = StateSuccess → st'.progress = 100)
    (hbyte : 0 < v.totalSizeBytes → st'.state ≠ StateSuccess →
        st'.progress ≤ goDiv (100 * v.totalBytesTransferred) v.totalSizeBytes)
    (hcount : (v.totalSizeBytes = fineGrainedUploadProgressNotSupported ∨
        v.totalSizeBytes = 0) →
        st'.progress ≤ goDiv (100 * ((v.totalCount : Int) - (v.children.length : Int)))
          (v.totalCount : Int)) :
    AggInv { v with status := some st' } := by
  obtain ⟨h1, h2, h3, h4, _, _, _, _, _, _, _⟩ := inv
  refine ⟨h1, h2, h3, h4, ?_, ?_, ?_, ?_, ?_, ?_, ?_⟩
  · intro st hst; rw [mem_some hst]; exact hlb
  · intro st hst; rw [mem_some hst]; exact hub
  · intro st hst; rw [mem_some hst]; exact hnp
  · intro st hst; rw [mem_some hst]; exact hsc
  · intro st hst; rw [mem_some hst]; exact hsp
  · intro hpos st hst; rw [mem_some hst]; exact hbyte hpos
  · intro hnb st hst; rw [mem_some hst]; exact hcount hnb

/-- Replacing both the transferred total and the status record preserves the
invariant, given the corresponding bounds. -/
theorem aggInv_setTbtStatus {v : MultiUpload} (inv : AggInv v) (t' : Int)
    (st' : UploadStatus)
    (ht0 : 0 ≤ t') (htle : 0 < v.totalSizeBytes → t' ≤ v.totalSizeBytes)
    (hlb : 0 ≤ st'.progress) (hub : st'.progress ≤ 100)
    (hnp : st'.state ≠ StatePending)
    (hsc : st'.state = StateSuccess → v.children = [])
    (hsp : st'.state = StateSuccess → st'.progress = 100)
    (hbyte : 0 < v.totalSizeBytes → st'.state ≠ StateSuccess →
        st'.progress ≤ goDiv (100 * t') v.totalSizeBytes)
    (hcount : (v.totalSizeBytes = fineGrainedUploadProgressNotSupported ∨
        v.totalSizeBytes = 0) →
        st'.progress ≤ goDiv (100 * ((v.totalCount : Int) - (v.children.length : Int)))
          (v.totalCount : Int)) :
    AggInv { v with totalBytesTransferred := t', status := some st' } := by
  obtain ⟨_, _, h3, h4, _, _, _, _, _, _, _⟩ := inv
  refine ⟨ht0, htle, h3, h4, ?_, ?_, ?_, ?_, ?_, ?_, ?_⟩
  · intro st hst; rw [mem_some hst]; exact hlb
  · intro st hst; rw [mem_some hst]; exact hub
  · intro st hst; rw [mem_some hst]; exact hnp
  · intro st hst; rw [mem_some hst]; exact hsc
  · intro st hst; rw [mem_some hst]; exact hsp
  · intro hpos st hst; rw [mem_some hst]; exact hbyte hpos
  · intro hnb st hst; rw [mem_some hst]; exact hcount hnb

theorem eventsOK_emit {v v' : MultiUpload} {evs : List UploadStatus}
    {e' : UploadStatus}
    (hOK : EventsOK v evs) (hst' : v'.status = some e')
    (hlb : 0 ≤ e'.progress) (hub : e'.progress ≤ 100)
    (hmono : ∀ st, v.status = some st → st.progress ≤ e'.progress) :
    EventsOK v' (evs ++ [e']) := by
  obtain ⟨hchain, hbnds, hnone, hsome, hlast⟩ := hOK
  refine ⟨?_, ?_, ?_, ?_, ?_⟩
  · rw [List.chain'_append]
    refine ⟨hchain, List.chain'_singleton _, ?_⟩
    intro x hx y hy
    simp only [List.head?_cons, Option.mem_def, Option.some.injEq] at hy
    subst hy
    cases hv : v.status with
    | none => rw [hnone hv] at hx; simp at hx
    | some st =>
      rw [Option.mem_def] at hx
      rw [hlast st x hv hx]
      exact hmono st hv
  · intro e he
    rcases List.mem_append.mp he with hmem | hmem
    · exact hbnds e hmem
    · rw [List.mem_singleton.mp hmem]; exact ⟨hlb, hub⟩
  · intro hcontr; rw [hst'] at hcontr; cases hcontr
  · intro _; simp
  · intro st e hv hlaste
    rw [List.getLast?_concat] at hlaste
    have he : e = e' := (Option.some_inj.mp hlaste).symm
    rw [hst'] at hv
    have hst : st = e' := (Option.some_inj.mp hv).symm
    rw [he, hst]

theorem eventsOK_still {v v' : MultiUpload} {evs : List UploadStatus}
    (hOK : EventsOK v evs) (hstat : v'.status = v.status) :
    EventsOK v' evs := by
  obtain ⟨hchain, hbnds, hnone, hsome, hlast⟩ := hOK
  exact ⟨hchain, hbnds, fun h => hnone (hstat ▸ h), fun h => hsome (hstat ▸ h),
    fun st e hv => hlast st e (hstat ▸ hv)⟩

theorem byte_bound_nonneg {v : MultiUpload} (inv : AggInv v)
    (hpos : 0 < v.totalSizeBytes) :
    (0 : Int) ≤ goDiv (100 * v.totalBytesTransferred) v.totalSizeBytes := by
  have h := inv.tbt_nonneg
  exact goDiv_nonneg (by linarith) hpos.le

theorem count_bound_nonneg {v : MultiUpload} (inv : AggInv v) :
    (0 : Int) ≤ goDiv (100 * ((v.totalCount : Int) - (v.children.length : Int)))
      (v.totalCount : Int) := by
  have h : ((v.children.length : Int)) ≤ (v.totalCount : Int) := by
    exact_mod_cast inv.children_le
  exact goDiv_nonneg (by linarith) (by positivity)

theorem state_ne_success_of_not_finished {st : UploadStatus}
    (hf : st.finished = false) : st.state ≠ StateSuccess :=
  ((finished_false_iff st).mp hf).1

/-- The count-based branch of `uploadFinished`, shared by the sentinel and
empty-set modes. -/
theorem finished_count_case {v v' : MultiUpload} {evs out : List UploadStatus}
    {st : UploadStatus} {su : SingleUpload} {now : Int} {r : Bool}
    (inv : AggInv v) (hOK : EventsOK v evs)
    (hv : v.status = some st) (hf' : st.finished = false)
    (hsu : su ∈ v.children)
    (hrem : (v.removeChild su).children.length ≠ 0)
    (hnb : v.totalSizeBytes = fineGrainedUploadProgressNotSupported ∨
      v.totalSizeBytes = 0)
    (hop : v.uploadFinished su now = some (v', out, r)) :
    AggInv v' ∧ EventsOK v' (evs ++ out) := by
  have hstmem := Option.mem_def.mpr hv
  have hnsucc := state_ne_success_of_not_finished hf'
  have hch1 : v.children ≠ [] := by
    intro he
    rw [he] at hsu
    cases hsu
  have htc1 : 1 ≤ v.totalCount := le_trans (List.length_pos.mpr hch1) inv.children_le
  have htcp : (0 : Int) < (v.totalCount : Int) := by exact_mod_cast htc1
  have hinvr := aggInv_removeChild inv su
  have hlen' : ((v.removeChild su).children.length : Int) ≤ (v.totalCount : Int) := by
    exact_mod_cast hinvr.children_le
  have hlen2 : ((v.removeChild su).children.length : Int) ≤ (v.children.length : Int) := by
    exact_mod_cast List.length_filter_le _ _
  have hlenv : ((v.children.length : Int)) ≤ (v.totalCount : Int) := by
    exact_mod_cast inv.children_le
  have hlb' : (0 : Int) ≤ goDiv
      (100 * ((v.totalCount : Int) - ((v.removeChild su).children.length : Int)))
      (v.totalCount : Int) := goDiv_nonneg (by linarith) htcp.le
  have hub' : goDiv
      (100 * ((v.totalCount : Int) - ((v.removeChild su).children.length : Int)))
      (v.totalCount : Int) ≤ 100 :=
    goDiv_hundred_le (by linarith) (by linarith) htcp
  rw [uploadFinished_of_count su now hv hf' hrem hnb] at hop
  injection hop with hpair
  injection hpair with h1 hrest
  injection hrest with h2 h3
  subst h1; subst h2
  constructor
  · refine aggInv_setStatus hinvr _ hlb' hub' (inv.not_pending st hstmem)
      (fun hh => absurd hh hnsucc) (fun hh => absurd hh hnsucc) ?_ ?_
    · intro hpos _
      have hpos' : 0 < v.totalSizeBytes := hpos
      exfalso
      have hm1 : v.totalSizeBytes = -1 ∨ v.totalSizeBytes = 0 := by
        simpa [fineGrainedUploadProgressNotSupported] using hnb
      omega
    · intro _
      exact le_refl _
  · refine eventsOK_emit hOK rfl hlb' hub' ?_
    intro st0 hst0
    rw [hv] at hst0
    rw [← Option.some_inj.mp hst0]
    refine (inv.prog_count hnb st hstmem).trans ?_
    exact goDiv_mono (by linarith) (by linarith) htcp

/-- The master invariant: along every driver-level trace from a freshly
registered aggregate, the state invariant holds and the emitted event
sequence is monotone, bounded, and ends at the current status progress. -/
theorem reaches_inv {u v : MultiUpload} {evs : List UploadStatus}
    (h : Reaches u v evs) (hinit : Initialized u) :
    AggInv v ∧ EventsOK v evs := by
  induction h with
  | refl => exact ⟨aggInv_initial hinit, eventsOK_initial hinit⟩
  | started info now h hop ih =>
    rename_i v v' evs out
    obtain ⟨inv, hOK⟩ := ih
    cases hv : v.status with
    | none =>
      rw [uploadStarted_of_none info now hv] at hop
      injection hop with h1 h2
      subst h1; subst h2
      constructor
      · refine aggInv_setStatus inv _ ?_ ?_ ?_ ?_ ?_ ?_ ?_
        · norm_num
        · norm_num
        · show StateUploading ≠ StatePending
          decide
        · intro hh
          exact absurd hh (show StateUploading ≠ StateSuccess by decide)
        · intro hh
          exact absurd hh (show StateUploading ≠ StateSuccess by decide)
        · intro hpos _; exact byte_bound_nonneg inv hpos
        · intro _; exact count_bound_nonneg inv
      · exact eventsOK_emit hOK rfl (by norm_num) (by norm_num)
          (fun st0 hst0 => by rw [hv] at hst0; cases hst0)
    | some st =>
      have hnp := inv.not_pending st (Option.mem_def.mpr hv)
      rw [uploadStarted_of_some info now hv hnp] at hop
      injection hop with h1 h2
      subst h1; subst h2
      rw [List.append_nil]
      exact ⟨inv, hOK⟩
  | progress d h hd hbound hns hop ih =>
    rename_i v v' evs out
    obtain ⟨inv, hOK⟩ := ih
    rcases inv.tsb_shape with hpos | hsent | hzero
    · cases hv : v.status with
      | none =>
        rw [changeProgress_of_pos_none d hv hpos] at hop
        cases hop
      | some st =>
        have htbt0 := inv.tbt_nonneg
        have hnsucc : st.state ≠ StateSuccess := by
          intro hh
          exact hns (by simp [hv, hh])
        have hmem := Option.mem_def.mpr hv
        rw [changeProgress_of_pos d hv hpos] at hop
        injection hop with hpair
        injection hpair with h1 h2
        subst h1; subst h2
        have hlb' : (0 : Int) ≤ goDiv (100 * (v.totalBytesTransferred + d))
            v.totalSizeBytes := goDiv_nonneg (by linarith) hpos.le
        have hub' : goDiv (100 * (v.totalBytesTransferred + d)) v.totalSizeBytes ≤ 100 :=
          goDiv_hundred_le (by linarith) (hbound hpos) hpos
        constructor
        · refine aggInv_setTbtStatus inv _ _ ?_ (fun _ => hbound hpos) hlb' hub'
            (inv.not_pending st hmem)
            (fun hh => absurd hh hnsucc) (fun hh => absurd hh hnsucc)
            (fun _ _ => le_refl _) ?_
          · omega
          · intro hnb
            exfalso
            have hm1 : v.totalSizeBytes = -1 ∨ v.totalSizeBytes = 0 := by
              simpa [fineGrainedUploadProgressNotSupported] using hnb
            omega
        · by_cases hne : goDiv (100 * (v.totalBytesTransferred + d)) v.totalSizeBytes
              ≠ st.progress
          · rw [if_pos hne]
            refine eventsOK_emit hOK rfl hlb' hub' ?_
            intro st0 hst0
            rw [hv] at hst0
            rw [← Option.some_inj.mp hst0]
            refine (inv.prog_byte hpos st hmem hnsucc).trans ?_
            exact goDiv_mono (by linarith) (by linarith) hpos
          · rw [if_neg hne, List.append_nil]
            have hnpeq : goDiv (100 * (v.totalBytesTransferred + d)) v.totalSizeBytes
                = st.progress := not_ne_iff.mp hne
            refine eventsOK_still hOK ?_
            show some ({ st with progress := goDiv (100 * (v.totalBytesTransferred + d)) v.totalSizeBytes }) = v.status
            rw [hnpeq, hv]
    · rw [changeProgress_of_sentinel d hsent] at hop
      injection hop with hpair
      injection hpair with h1 h2
      subst h1; subst h2
      rw [List.append_nil]
      exact ⟨inv, hOK⟩
    · rw [changeProgress_of_zero d hzero] at hop
      injection hop with hpair
      injection hpair with h1 h2
      subst h1; subst h2
      rw [List.append_nil]
      exact ⟨inv, hOK⟩
  | finished su now r h hmem hrep hbound hop ih =>
    rename_i v v' evs out
    obtain ⟨inv, hOK⟩ := ih
    cases hv : v.status with
    | none =>
      rw [uploadFinished_of_nonestatus su now hv] at hop
      cases hop
    | some st =>
      have hstmem := Option.mem_def.mpr hv
      by_cases hf : st.finished = true
      · rw [uploadFinished_of_finished su now hv hf] at hop
        injection hop with hpair
        injection hpair with h1 hrest
        injection hrest with h2 h3
        subst h1; subst h2
        rw [List.append_nil]
        exact ⟨aggInv_removeChild inv su, eventsOK_still hOK rfl⟩
      · have hf' : st.finished = false := by
          cases hcf : st.finished
          · rfl
          · exact absurd hcf hf
        have hnsucc := state_ne_success_of_not_finished hf'
        have hsu : su ∈ v.children := by
          rcases hmem with hsu | hfin
          · exact hsu
          · rw [hv, Option.map_some'] at hfin
            exact absurd (Option.some_inj.mp hfin) hf
        have hch1 : v.children ≠ [] := by
          intro he
          rw [he] at hsu
          cases hsu
        have htc1 : 1 ≤ v.totalCount :=
          le_trans (List.length_pos.mpr hch1) inv.children_le
        have htcp : (0 : Int) < (v.totalCount : Int) := by exact_mod_cast htc1
        by_cases hrem : (v.removeChild su).children.length = 0
        · rw [uploadFinished_of_last su now hv hf' hrem] at hop
          injection hop with hpair
          injection hpair with h1 hrest
          injection hrest with h2 h3
          subst h1; subst h2
          have hinvr := aggInv_removeChild inv su
          constructor
          · refine aggInv_setStatus hinvr _ ?_ ?_ ?_ ?_ ?_ ?_ ?_
            · norm_num
            · norm_num
            · show StateSuccess ≠ StatePending
              decide
            · intro _; exact List.length_eq_zero.mp hrem
            · intro _; rfl
            · intro _ hne; exact absurd rfl hne
            · intro _
              have hz : ((v.removeChild su).children.length : Int) = 0 := by
                exact_mod_cast hrem
              show (100 : Int) ≤ goDiv
                (100 * ((v.totalCount : Int) - ((v.removeChild su).children.length : Int)))
                (v.totalCount : Int)
              rw [hz, sub_zero]
              exact le_of_eq (goDiv_self_hundred htcp).symm
          · refine eventsOK_emit hOK rfl (by norm_num) (by norm_num) ?_
            intro st0 hst0
            rw [hv] at hst0
            rw [← Option.some_inj.mp hst0]
            exact inv.prog_ub st hstmem
        · rcases inv.tsb_shape with hpos | hsent | hzero
          · have htop : (0 : Int) ≤ su.totalSizeBytes - su.bytesTransferred := by omega
            have htbt0 := inv.tbt_nonneg
            rw [uploadFinished_of_byte su now hv hf' hrem hpos] at hop
            injection hop with hpair
            injection hpair with h1 hrest
            injection hrest with h2 h3
            subst h1; subst h2
            have hlb' : (0 : Int) ≤ goDiv
                (100 * (v.totalBytesTransferred + (su.totalSizeBytes - su.bytesTransferred)))
                v.totalSizeBytes := goDiv_nonneg (by linarith) hpos.le
            have hub' : goDiv
                (100 * (v.totalBytesTransferred + (su.totalSizeBytes - su.bytesTransferred)))
                v.totalSizeBytes ≤ 100 :=
              goDiv_hundred_le (by linarith) (hbound hpos) hpos
            constructor
            · refine aggInv_setTbtStatus (aggInv_removeChild inv su) _ _ ?_
                (fun _ => hbound hpos) hlb' hub' (inv.not_pending st hstmem)
                (fun hh => absurd hh hnsucc) (fun hh => absurd hh hnsucc)
                (fun _ _ => le_refl _) ?_
              · omega
              · intro hnb
                exfalso
                have hnb' : v.totalSizeBytes = fineGrainedUploadProgressNotSupported ∨
                    v.totalSizeBytes = 0 := hnb
                have hm1 : v.totalSizeBytes = -1 ∨ v.totalSizeBytes = 0 := by
                  simpa [fineGrainedUploadProgressNotSupported] using hnb'
                omega
            · refine eventsOK_emit hOK rfl hlb' hub' ?_
              intro st0 hst0
              rw [hv] at hst0
              rw [← Option.some_inj.mp hst0]
              refine (inv.prog_byte hpos st hstmem hnsucc).trans ?_
              exact goDiv_mono (by linarith) (by linarith) hpos
          · exact finished_count_case inv hOK hv hf' hsu hrem (Or.inl hsent) hop
          · exact finished_count_case inv hOK hv hf' hsu hrem (Or.inr hzero) hop
  | failed su msg now r h hop ih =>
    rename_i v v' evs out
    obtain ⟨inv, hOK⟩ := ih
    cases hv : v.status with
    | none =>
      rw [uploadFailed_of_none su msg now hv] at hop
      injection hop with h1 hrest
      injection hrest with h2 h3
      subst h1; subst h2
      rw [List.append_nil]
      exact ⟨aggInv_removeChild inv su, eventsOK_still hOK rfl⟩
    | some st =>
      have hstmem := Option.mem_def.mpr hv
      by_cases hf : st.finished = true
      · rw [uploadFailed_of_finished su msg now hv hf] at hop
        injection hop with h1 hrest
        injection hrest with h2 h3
        subst h1; subst h2
        rw [List.append_nil]
        exact ⟨aggInv_removeChild inv su, eventsOK_still hOK rfl⟩
      · have hf' : st.finished = false := by
          cases hcf : st.finished
          · rfl
          · exact absurd hcf hf
        have hnsucc := state_ne_success_of_not_finished hf'
        rw [uploadFailed_of_active su msg now hv hf'] at hop
        injection hop with h1 hrest
        injection hrest with h2 h3
        subst h1; subst h2
        constructor
        · refine aggInv_setStatus (aggInv_removeChild inv su) _
            (inv.prog_lb st hstmem) (inv.prog_ub st hstmem) ?_ ?_ ?_ ?_ ?_
          · show StateFailed ≠ StatePending
            decide
          · intro hh
            exact absurd hh (show StateFailed ≠ StateSuccess by decide)
          · intro hh
            exact absurd hh (show StateFailed ≠ StateSuccess by decide)
          · intro hpos _; exact inv.prog_byte hpos st hstmem hnsucc
          · intro hnb; exact (aggInv_removeChild inv su).prog_count hnb st hstmem
        · refine eventsOK_emit hOK rfl (inv.prog_lb st hstmem) (inv.prog_ub st hstmem) ?_
          intro st0 hst0
          rw [hv] at hst0
          rw [← Option.some_inj.mp hst0]
  | canceled code msg now r h hop ih =>
    rename_i v v' evs out
    obtain ⟨inv, hOK⟩ := ih
    cases hv : v.status with
    | none =>
      rw [cancel_of_none code msg now hv] at hop
      injection hop with h1 hrest
      injection hrest with h2 h3
      subst h1; subst h2
      constructor
      · refine aggInv_setStatus inv _ ?_ ?_ ?_ ?_ ?_ ?_ ?_
        · norm_num
        · norm_num
        · show StateCanceled ≠ StatePending
          decide
        · intro hh
          exact absurd hh (show StateCanceled ≠ StateSuccess by decide)
        · intro hh
          exact absurd hh (show StateCanceled ≠ StateSuccess by decide)
        · intro hpos _; exact byte_bound_nonneg inv hpos
        · intro _; exact count_bound_nonneg inv
      · exact eventsOK_emit hOK rfl (by norm_num) (by norm_num)
          (fun st0 hst0 => by rw [hv] at hst0; cases hst0)
    | some st =>
      have hstmem := Option.mem_def.mpr hv
      by_cases hf : st.finished = true
      · rw [cancel_of_finished code msg now hv hf] at hop
        injection hop with h1 hrest
        injection hrest with h2 h3
        subst h1; subst h2
        rw [List.append_nil]
        exact ⟨inv, hOK⟩
      · have hf' : st.finished = false := by
          cases hcf : st.finished
          · rfl
          · exact absurd hcf hf
        have hnsucc := state_ne_success_of_not_finished hf'
        rw [cancel_of_active code msg now hv hf'] at hop
        injection hop with h1 hrest
        injection hrest with h2 h3
        subst h1; subst h2
        constructor
        · refine aggInv_setStatus inv _
            (inv.prog_lb st hstmem) (inv.prog_ub st hstmem) ?_ ?_ ?_ ?_ ?_
          · show StateCanceled ≠ StatePending
            decide
          · intro hh
            exact absurd hh (show StateCanceled ≠ StateSuccess by decide)
          · intro hh
            exact absurd hh (show StateCanceled ≠ StateSuccess by decide)
          · intro hpos _; exact inv.prog_byte hpos st hstmem hnsucc
          · intro hnb; exact inv.prog_count hnb st hstmem
        · refine eventsOK_emit hOK rfl (inv.prog_lb st hstmem) (inv.prog_ub st hstmem) ?_
          intro st0 hst0
          rw [hv] at hst0
          rw [← Option.some_inj.mp hst0]

/-! ### C2: the emitted progress sequence -/

/-- C2 counterexample: a legal execution — one 10-byte child, start, a
progress callback reporting the full size (emitting progress 100 while
UPLOADING), then cancel — emits the value 100 although the aggregate's final
state is CANCELED.  This refutes the claimed "100 is emitted iff the final
state is SUCCESS". -/
theorem spec2proof_c2_counterexample :
    Initialized traceInit ∧
    Reaches traceInit traceV3 (([] ++ [traceSt1] ++ [traceSt2]) ++ [traceSt3]) ∧
    traceV3.status.map (fun st => st.state) = some StateCanceled ∧
    100 ∈ (([] ++ [traceSt1] ++ [traceSt2]) ++ [traceSt3]).map
      (fun e : UploadStatus => e.progress) := by
  refine ⟨⟨rfl, rfl, by decide, by decide⟩, ?_, by decide, by decide⟩
  have h1 : Reaches traceInit traceV1 ([] ++ [traceSt1]) :=
    Reaches.started [] 1 (Reaches.refl traceInit) (by decide)
  have h2 : Reaches traceInit traceV2 (([] ++ [traceSt1]) ++ [traceSt2]) :=
    Reaches.progress 10 h1 (by decide) (by intro _; decide) (by decide) (by decide)
  exact Reaches.canceled "tc" "m" 2 true h2 (by decide)

/-- C2 (amended): along every driver-level trace from a freshly registered
aggregate (deltas non-negative and bounded as the progress callbacks
guarantee), the emitted progress sequence is non-decreasing and contained in
[0,100], and if the aggregate ends in SUCCESS the last emitted event carries
progress 100; the converse direction of the original claim fails (see the
counterexample), since all bytes can be transferred — emitting 100 — before
the aggregate is canceled or fails. -/
theorem spec2proof_c2 {u v : MultiUpload} {evs : List UploadStatus}
    (hinit : Initialized u) (h : Reaches u v evs) :
    List.Chain' (fun a b => a.progress ≤ b.progress) evs ∧
    (∀ e ∈ evs, 0 ≤ e.progress ∧ e.progress ≤ 100) ∧
    (∀ st, v.status = some st → st.state = StateSuccess →
        ∃ e, evs.getLast? = some e ∧ e.progress = 100) := by
  obtain ⟨inv, hchain, hbnds, hnone, hsome, hlast⟩ := reaches_inv h hinit
  refine ⟨hchain, hbnds, ?_⟩
  intro st hst hsucc
  have hne : evs ≠ [] := hsome (by rw [hst]; rfl)
  obtain ⟨e, he⟩ := Option.isSome_iff_exists.mp (List.getLast?_isSome.mpr hne)
  refine ⟨e, he, ?_⟩
  rw [hlast st e hst he]
  exact inv.succ_prog st (Option.mem_def.mpr hst) hsucc

/-- C2 witness: the amended theorem applied to the one-step trace that just
starts the aggregate. -/
theorem spec2proof_c2_witness :
    List.Chain' (fun a b => a.progress ≤ b.progress) ([] ++ [traceSt1]) ∧
    (∀ e ∈ ([] ++ [traceSt1]), 0 ≤ e.progress ∧ e.progress ≤ 100) ∧
    (∀ st, traceV1.status = some st → st.state = StateSuccess →
        ∃ e, ([] ++ [traceSt1]).getLast? = some e ∧ e.progress = 100) :=
  spec2proof_c2 ⟨rfl, rfl, by decide, by decide⟩
    (Reaches.started [] 1 (Reaches.refl traceInit) (by decide))

/-! ### C8: ring buffer overwrite correctness -/

theorem mod_shift_inj {n s i j : Nat} (hi : i < n) (hj : j < n)
    (h : (s + i) % n = (s + j) % n) : i = j := by
  have h2 : Nat.ModEq n i j := Nat.ModEq.add_left_cancel' s h
  have h3 : i % n = j % n := h2
  rw [Nat.mod_eq_of_lt hi, Nat.mod_eq_of_lt hj] at h3
  exact h3

theorem rep_new (α : Type) (C : Nat) : (newRingBuffer α C).Rep [] := by
  unfold ringBuffer.Rep newRingBuffer
  simp

theorem put_elements_length {α : Type} (buf : ringBuffer α) (x : α) :
    (buf.put x).elements.length = buf.elements.length := by
  simp only [ringBuffer.put, List.length_set]
  split <;> simp

theorem putAll_elements_length {α : Type} (es : List α) :
    ∀ buf : ringBuffer α, (buf.putAll es).elements.length = buf.elements.length := by
  induction es with
  | nil => intro buf; rfl
  | cons x es ih =>
    intro buf
    show ((buf.put x).putAll es).elements.length = _
    rw [ih, put_elements_length]

theorem rep_put_notfull {α : Type} {buf : ringBuffer α} {l : List (Option α)} (x : α)
    (hrep : buf.Rep l) (hnf : l.length + 1 < buf.elements.length) :
    (buf.put x).Rep (l ++ [some x]) := by
  obtain ⟨⟨hn, hs, he⟩, hlen, hend, hcells⟩ := hrep
  have hstep : (buf.endIdx + 1) % buf.elements.length
      = (buf.start + (l.length + 1)) % buf.elements.length := by
    rw [hend, Nat.mod_add_mod, Nat.add_assoc]
  have hne : ¬ (buf.endIdx + 1) % buf.elements.length = buf.start := by
    intro heq
    rw [hstep] at heq
    have heq0 : (buf.start + (l.length + 1)) % buf.elements.length
        = (buf.start + 0) % buf.elements.length := by
      rw [heq]
      simp [Nat.mod_eq_of_lt hs]
    exact absurd (mod_shift_inj hnf hn heq0) (by omega)
  unfold ringBuffer.Rep
  simp only [ringBuffer.put, List.length_set]
  rw [if_neg hne]
  refine ⟨⟨?_, ?_, ?_⟩, ?_, ?_, ?_⟩
  · simpa using hn
  · simpa using hs
  · simpa using Nat.mod_lt (buf.endIdx + 1) hn
  · simpa using hnf
  · simpa using hstep
  · intro i hi
    simp only [List.length_append, List.length_singleton] at hi
    simp only [List.length_set]
    rcases Nat.lt_or_ge i l.length with hilt | hige
    · have hslot : (buf.start + i) % buf.elements.length ≠ buf.endIdx := by
        intro heq
        rw [hend] at heq
        exact absurd (mod_shift_inj (by omega) (by omega) heq) (by omega)
      rw [List.getD_eq_getElem?_getD, List.getElem?_set_ne (fun hh => hslot hh.symm),
        ← List.getD_eq_getElem?_getD, hcells i hilt, List.getD_eq_getElem?_getD,
        List.getD_eq_getElem?_getD, List.getElem?_append_left hilt]
    · have hieq : i = l.length := by omega
      subst hieq
      have hslot : (buf.start + l.length) % buf.elements.length = buf.endIdx := hend.symm
      rw [List.getD_eq_getElem?_getD, hslot,
        List.getElem?_set_self (by omega), List.getD_eq_getElem?_getD,
        List.getElem?_concat_length]

theorem rep_put_full {α : Type} {buf : ringBuffer α} {l : List (Option α)} (x : α)
    (hrep : buf.Rep l) (hpos : 0 < l.length)
    (hfull : l.length + 1 = buf.elements.length) :
    (buf.put x).Rep (l.tail ++ [some x]) := by
  obtain ⟨⟨hn, hs, he⟩, hlen, hend, hcells⟩ := hrep
  have hstep : (buf.endIdx + 1) % buf.elements.length
      = (buf.start + (l.length + 1)) % buf.elements.length := by
    rw [hend, Nat.mod_add_mod, Nat.add_assoc]
  have heqs : (buf.endIdx + 1) % buf.elements.length = buf.start := by
    rw [hstep, hfull, Nat.add_mod_right, Nat.mod_eq_of_lt hs]
  have hlen' : (l.tail ++ [some x]).length = l.length := by
    simp
    omega
  unfold ringBuffer.Rep
  simp only [ringBuffer.put, List.length_set]
  rw [if_pos heqs]
  refine ⟨⟨?_, ?_, ?_⟩, ?_, ?_, ?_⟩
  · simpa using hn
  · simpa using Nat.mod_lt (buf.start + 1) hn
  · simpa using Nat.mod_lt (buf.endIdx + 1) hn
  · simp only [List.length_set, hlen']
    omega
  · simp only [List.length_set, hlen']
    rw [heqs, Nat.mod_add_mod]
    have harith : buf.start + 1 + l.length = buf.start + buf.elements.length := by omega
    rw [harith, Nat.add_mod_right, Nat.mod_eq_of_lt hs]
  · intro i hi
    rw [hlen'] at hi
    simp only [List.length_set]
    have hshift : ((buf.start + 1) % buf.elements.length + i) % buf.elements.length
        = (buf.start + (1 + i)) % buf.elements.length := by
      rw [Nat.mod_add_mod, Nat.add_assoc]
    rcases Nat.lt_or_ge i (l.length - 1) with hilt | hige
    · have hslot : (buf.start + (1 + i)) % buf.elements.length ≠ buf.endIdx := by
        intro heq
        rw [hend] at heq
        exact absurd (mod_shift_inj (by omega) (by omega) heq) (by omega)
      rw [List.getD_eq_getElem?_getD, hshift,
        List.getElem?_set_ne (fun hh => hslot hh.symm), ← List.getD_eq_getElem?_getD,
        hcells (1 + i) (by omega), List.getD_eq_getElem?_getD, List.getD_eq_getElem?_getD,
        List.getElem?_append_left (by simp; omega), ← List.drop_one, List.getElem?_drop,
        Nat.add_comm 1 i]
    · have hieq : i = l.length - 1 := by omega
      subst hieq
      have hslot : (buf.start + (1 + (l.length - 1))) % buf.elements.length
          = buf.endIdx := by
        rw [hend]
        congr 1
        omega
      rw [List.getD_eq_getElem?_getD, hshift, hslot, List.getElem?_set_self (by omega),
        List.getD_eq_getElem?_getD]
      have htl : l.tail.length = l.length - 1 := by simp
      rw [← htl, List.getElem?_concat_length]

theorem rep_get_nil {α : Type} {buf : ringBuffer α} (hrep : buf.Rep []) :
    buf.get = (none, buf) := by
  obtain ⟨⟨hn, hs, he⟩, hlen, hend, hcells⟩ := hrep
  have hse : buf.start = buf.endIdx := by
    rw [hend]
    simp [Nat.mod_eq_of_lt hs]
  unfold ringBuffer.get
  rw [if_pos hse]

theorem rep_get_cons {α : Type} {buf : ringBuffer α} {o : Option α}
    {t : List (Option α)} (hrep : buf.Rep (o :: t)) :
    buf.get = (some o, { buf with start := (buf.start + 1) % buf.elements.length }) ∧
    ({ buf with start := (buf.start + 1) % buf.elements.length } : ringBuffer α).Rep t := by
  obtain ⟨⟨hn, hs, he⟩, hlen, hend, hcells⟩ := hrep
  simp only [List.length_cons] at hlen hend
  have hsne : ¬ buf.start = buf.endIdx := by
    intro heq
    rw [hend] at heq
    have heq0 : (buf.start + 0) % buf.elements.length
        = (buf.start + (t.length + 1)) % buf.elements.length := by
      rw [← heq]
      simp [Nat.mod_eq_of_lt hs]
    exact absurd (mod_shift_inj hn hlen heq0).symm (by omega)
  have hcell0 : buf.elements.getD buf.start none = o := by
    have h0 := hcells 0 (by simp)
    rw [Nat.add_zero, Nat.mod_eq_of_lt hs] at h0
    simpa using h0
  constructor
  · unfold ringBuffer.get
    rw [if_neg hsne, hcell0]
  · refine ⟨⟨hn, Nat.mod_lt (buf.start + 1) hn, he⟩,
      show t.length < buf.elements.length by omega, ?_, ?_⟩
    · show buf.endIdx = ((buf.start + 1) % buf.elements.length + t.length)
        % buf.elements.length
      rw [Nat.mod_add_mod, hend]
      congr 1
      omega
    · intro i hi
      show buf.elements.getD (((buf.start + 1) % buf.elements.length + i)
        % buf.elements.length) none = t.getD i none
      rw [Nat.mod_add_mod, Nat.add_assoc]
      have hc := hcells (1 + i) (by simp only [List.length_cons]; omega)
      rw [hc]
      simp [Nat.add_comm 1 i]

theorem reduceOption_map_some {α : Type} (l : List α) :
    (l.map some).reduceOption = l := by
  induction l with
  | nil => rfl
  | cons a t ih => simp [List.reduceOption_cons_of_some, ih]

theorem drainAux_rep {α : Type} :
    ∀ (fuel : Nat) (buf : ringBuffer α) (l : List (Option α)),
      buf.Rep l → l.length ≤ fuel →
      ringBuffer.drainAux fuel buf = l.reduceOption
  | 0, buf, l, hrep, hfuel => by
    have hl : l = [] := List.length_eq_zero.mp (Nat.le_zero.mp hfuel)
    subst hl
    rfl
  | (fuel + 1), buf, l, hrep, hfuel => by
    cases l with
    | nil =>
      unfold ringBuffer.drainAux
      rw [rep_get_nil hrep]
      rfl
    | cons o t =>
      obtain ⟨hget, hrep'⟩ := rep_get_cons hrep
      unfold ringBuffer.drainAux
      rw [hget]
      show o.toList ++ ringBuffer.drainAux fuel { elements := buf.elements, start := (buf.start + 1) % buf.elements.length, endIdx := buf.endIdx } = (o :: t).reduceOption
      rw [drainAux_rep fuel _ t hrep' (by simp at hfuel; omega)]
      cases o <;> simp [List.reduceOption]

theorem rep_putAll {α : Type} (C : Nat) (hC : 0 < C) (xs : List α) :
    ((newRingBuffer α C).putAll xs).Rep ((xs.drop (xs.length - C)).map some) := by
  induction xs using List.reverseRecOn with
  | nil => simpa using rep_new α C
  | append_singleton ys x ih =>
    have hlenbuf : ((newRingBuffer α C).putAll ys).elements.length = C + 1 := by
      rw [putAll_elements_length]
      simp [newRingBuffer]
    have hstep : ((newRingBuffer α C).putAll (ys ++ [x]))
        = ((newRingBuffer α C).putAll ys).put x := by
      unfold ringBuffer.putAll
      exact List.foldl_concat _ _ _ _
    rcases Nat.lt_or_ge ys.length C with hm | hm
    · have hdrop : ys.length - C = 0 := by omega
      have hlist : ((ys.drop (ys.length - C)).map some).length = ys.length := by
        rw [hdrop]
        simp
      have hrep' := rep_put_notfull x ih (by rw [hlist, hlenbuf]; omega)
      rw [hstep]
      have hgoal : ((ys ++ [x]).drop ((ys ++ [x]).length - C)).map some
          = (ys.drop (ys.length - C)).map some ++ [some x] := by
        have hd2 : (ys ++ [x]).length - C = 0 := by simp; omega
        rw [hd2, hdrop]
        simp
      rw [hgoal]
      exact hrep'
    · have hlist : ((ys.drop (ys.length - C)).map some).length = C := by
        simp
        omega
      have hrep' := rep_put_full x ih (by rw [hlist]; omega)
        (by rw [hlist, hlenbuf])
      rw [hstep]
      have hgoal : ((ys ++ [x]).drop ((ys ++ [x]).length - C)).map some
          = ((ys.drop (ys.length - C)).map some).tail ++ [some x] := by
        have hd2 : (ys ++ [x]).length - C = (ys.length - C) + 1 := by simp; omega
        rw [hd2]
        rw [← List.map_tail, List.tail_drop]
        rw [List.drop_append_of_le_length (by omega)]
        simp
      rw [hgoal]
      exact hrep'

/-- C8: with capacity `C`, enqueuing `C + K` items and then draining yields
exactly the last `C` items in the order they were enqueued; the `K` oldest
have been silently overwritten. -/
theorem spec2proof_c8 {α : Type} (C K : Nat) (hC : 0 < C) (xs : List α)
    (hlen : xs.length = C + K) :
    ((newRingBuffer α C).putAll xs).drain = xs.drop K := by
  have hrep := rep_putAll C hC xs
  rw [hlen, Nat.add_sub_cancel_left] at hrep
  have hn : ((newRingBuffer α C).putAll xs).elements.length = C + 1 := by
    rw [putAll_elements_length]
    simp [newRingBuffer]
  have hfuel : ((xs.drop K).map some).length
      ≤ ((newRingBuffer α C).putAll xs).elements.length := by
    rw [hn]
    simp
    omega
  rw [ringBuffer.drain, drainAux_rep _ _ _ hrep hfuel, reduceOption_map_some]

/-- C8 witness: capacity 2, three enqueued items, the drained survivors are
the last two in FIFO order. -/
theorem spec2proof_c8_witness :
    ((newRingBuffer Nat 2).putAll [1, 2, 3]).drain = [2, 3] :=
  spec2proof_c8 2 1 (by decide) [1, 2, 3] rfl

end FileUpload
